import Mathlib

/-!
Verification of `pydantic_duality` (file `src/pydantic_duality/__init__.py`).

The library derives, from one canonical model declaration, three pydantic
model variants: a Request variant (`extra="forbid"` by default), a Response
variant (`extra="ignore"` by default) and a PatchRequest variant (fields made
optional).  This file gives a shallow embedding of the metaclass machinery:

* `TypeExpr` models Python type expressions as the code distinguishes them:
  classes whose metaclass is `DualBaseModelMeta` (`dualRef`), generated
  variant classes and other `ModelMetaclass` instances, builtin generic
  aliases (`types.GenericAlias`, e.g. `list[X]`), typing aliases
  (`typing.List[X]`, `typing.Dict[K, V]`, ... — `_resolve_annotation` only
  special-cases the ones with origin `list`), `Union`, `Annotated`,
  `Literal`, string forward references, and opaque non-type objects that can
  sit in `Annotated` metadata.
* `resolveAnn` is `_resolve_annotation`, `patchField` combines the
  `patch_attrs` computation in `_generate_alternative_classes` with
  `_alter_attrs`, and `buildAll` plays the metaclass: it walks the list of
  model declarations in definition order and produces, for each one, the
  merged field sets and effective `extra` configuration of the three
  generated variants.
* `parseMap`/`checkVal` model pydantic validation of a mapping against a
  generated variant (presence of required fields, per-field shape check,
  and the `extra` policy for unrecognized keys).
* `pyEq`/`pyHash`/`issubclassB`/`isinstanceB` model the identity facade of
  `DualBaseModelMeta` (`__eq__`, `__hash__`, `__subclasscheck__`,
  `__instancecheck__`), and `accessChain` models lazy construction and
  caching of the Response/PatchRequest variants via `cached_classproperty`.
-/

namespace PydanticDuality

/-- The three generated variants: the attribute names `__request__`,
`__response__` and `__patch_request__`. -/
inductive Which where
  | request
  | response
  | patch
deriving DecidableEq, Repr

/-- Literal values usable in `Literal[...]` types and as field defaults. -/
inductive PyLit where
  | intL (n : Int)
  | strL (s : String)
  | noneL
  | boolL (b : Bool)
deriving DecidableEq, Repr

mutual
/-- Python type expressions, by the cases `_resolve_annotation`
distinguishes.  `dualRef m` is a class whose metaclass is
`DualBaseModelMeta` (the canonical model with index `m` in the environment);
`variantRef m w` is a generated variant class (a plain `ModelMetaclass`
instance); `plainModel` is any other pydantic model class; `genericAlias` is
a `types.GenericAlias` such as `list[X]`; `typingAlias` is a
`typing._GenericAlias` such as `typing.List[X]` (origin `"list"`) or
`typing.Dict[K, V]` (origin `"dict"`); `metaObj` is an opaque non-class
object (e.g. a `FieldInfo` used as `Annotated` metadata). -/
inductive TypeExpr where
  | prim (name : String)
  | dualRef (m : Nat)
  | variantRef (m : Nat) (w : Which)
  | plainModel (name : String)
  | genericAlias (origin : String) (args : TEList)
  | typingAlias (origin : String) (args : TEList)
  | unionT (members : TEList)
  | annotatedT (args : TEList)
  | litT (vals : List PyLit)
  | strRef (s : String)
  | metaObj (tag : String)
deriving DecidableEq, Repr

/-- Lists of type expressions (mutual with `TypeExpr`). -/
inductive TEList where
  | nil
  | cons (t : TypeExpr) (ts : TEList)
deriving DecidableEq, Repr
end

/-- Membership test on `TEList`. -/
def TEList.memB (x : TypeExpr) : TEList → Bool
  | .nil => false
  | .cons t ts => (t = x) || TEList.memB x ts

/-- Map an (externally given) function over a `TEList`. -/
def TEList.mapF (f : TypeExpr → TypeExpr) : TEList → TEList
  | .nil => .nil
  | .cons t ts => .cons (f t) (TEList.mapF f ts)

/-- Conjunction of an (externally given) predicate over a `TEList`. -/
def TEList.allF (p : TypeExpr → Bool) : TEList → Bool
  | .nil => true
  | .cons t ts => p t && TEList.allF p ts

/-- Append on `TEList`. -/
def TEList.app : TEList → TEList → TEList
  | .nil, ys => ys
  | .cons t ts, ys => .cons t (TEList.app ts ys)

/-- Length of a `TEList`. -/
def TEList.len : TEList → Nat
  | .nil => 0
  | .cons _ ts => TEList.len ts + 1

/-- Is the head constructor a `Union`?  (`typing.Union` flattens nested
unions at construction time, so well-formed declared unions never contain
unions as members.) -/
def TypeExpr.isUnion : TypeExpr → Bool
  | .unionT _ => true
  | _ => false

/-- Flattening step of `Union.__getitem__`: nested union members are
spliced into the member list. -/
def flattenUnion : TEList → TEList
  | .nil => .nil
  | .cons (.unionT ms) rest => TEList.app ms (flattenUnion rest)
  | .cons t rest => .cons t (flattenUnion rest)

/-- Deduplication step of `Union.__getitem__`: duplicates are dropped,
keeping the first occurrence (Python preserves the first parameter order). -/
def dedupAcc (seen : TEList) : TEList → TEList
  | .nil => .nil
  | .cons t ts =>
    if TEList.memB t seen then dedupAcc seen ts
    else .cons t (dedupAcc (.cons t seen) ts)

/-- `Union.__getitem__(tuple(members))`: flatten nested unions, drop
duplicates keeping first occurrences, and collapse a singleton to its sole
member. -/
def mkUnion (ms : TEList) : TypeExpr :=
  match dedupAcc .nil (flattenUnion ms) with
  | .cons t .nil => t
  | l => .unionT l

/-- `Optional[t]`, i.e. `Union[t, None]`. -/
def mkOptional (t : TypeExpr) : TypeExpr :=
  mkUnion (.cons t (.cons (.prim "None") .nil))

mutual
/-- `_resolve_annotation(annotation, attr)` (lines 54-77 of the source):
a class with metaclass `DualBaseModelMeta` becomes `getattr(cls, attr)`,
i.e. its target variant; `Annotated[...]` has *all* of its `get_args`
resolved (metadata included); a `types.GenericAlias` has its arguments
resolved; any other `ModelMetaclass` instance (generated variants, plain
pydantic models) is returned unchanged; `Union` members are resolved and
re-assembled with `Union.__getitem__`; a `typing` alias whose origin is
`list` has its arguments resolved; everything else (primitives, `Literal`,
strings, other `typing` aliases such as `typing.Dict[...]`, opaque
metadata objects) is returned unchanged. -/
def resolveAnn : TypeExpr → Which → TypeExpr
  | .dualRef m, attr => .variantRef m attr
  | .annotatedT args, attr => .annotatedT (resolveList args attr)
  | .genericAlias o args, attr => .genericAlias o (resolveList args attr)
  | .variantRef m w, _ => .variantRef m w
  | .plainModel n, _ => .plainModel n
  | .unionT ms, attr => mkUnion (resolveList ms attr)
  | .typingAlias o args, attr =>
    if o = "list" then .typingAlias o (resolveList args attr)
    else .typingAlias o args
  | .prim n, _ => .prim n
  | .litT vs, _ => .litT vs
  | .strRef s, _ => .strRef s
  | .metaObj t, _ => .metaObj t

/-- Pointwise resolution of a list of type arguments. -/
def resolveList : TEList → Which → TEList
  | .nil, _ => .nil
  | .cons t ts, attr => .cons (resolveAnn t attr) (resolveList ts attr)
end

mutual
/-- Rewrites the image of a Request-targeted resolution into the image of a
PatchRequest-targeted resolution: generated Request variant references
become PatchRequest references, everything else is kept. -/
def retarget : TypeExpr → TypeExpr
  | .variantRef m .request => .variantRef m .patch
  | .variantRef m w => .variantRef m w
  | .dualRef m => .dualRef m
  | .annotatedT args => .annotatedT (retargetList args)
  | .genericAlias o args => .genericAlias o (retargetList args)
  | .typingAlias o args => .typingAlias o (retargetList args)
  | .unionT ms => .unionT (retargetList ms)
  | .plainModel n => .plainModel n
  | .prim n => .prim n
  | .litT vs => .litT vs
  | .strRef s => .strRef s
  | .metaObj t => .metaObj t

/-- Pointwise `retarget` on argument lists. -/
def retargetList : TEList → TEList
  | .nil => .nil
  | .cons t ts => .cons (retarget t) (retargetList ts)
end

/-- Boolean no-duplicates check on a `TEList`. -/
def TEList.nodupB : TEList → Bool
  | .nil => true
  | .cons t ts => !(TEList.memB t ts) && TEList.nodupB ts

mutual
/-- Well-formedness of a *declared* annotation, matching what a schema
author can actually write in Python: no references to generated variant
classes (those are only produced by resolution), `Union`s are flat with at
least two pairwise distinct members (Python's `Union[...]` guarantees
this at construction), and `Annotated` has at least two arguments. -/
def annWF : TypeExpr → Bool
  | .prim _ => true
  | .dualRef _ => true
  | .variantRef _ _ => false
  | .plainModel _ => true
  | .genericAlias _ args => annWFList args
  | .typingAlias _ args => annWFList args
  | .unionT ms =>
    annWFList ms && TEList.allF (fun m => !m.isUnion) ms &&
      TEList.nodupB ms && decide (2 ≤ TEList.len ms)
  | .annotatedT args => annWFList args && decide (2 ≤ TEList.len args)
  | .litT _ => true
  | .strRef _ => true
  | .metaObj _ => true

/-- `annWF` on every member of a list. -/
def annWFList : TEList → Bool
  | .nil => true
  | .cons t ts => annWF t && annWFList ts
end

/-- The value assigned to a field name in the class body: either a plain
default value (`x: T = v`) or a `FieldInfo` (`x: T = Field(...)`, whose
`default` is `PydanticUndefined` when absent, modelled as `none`). -/
inductive DefaultVal where
  | plain (v : PyLit)
  | fieldInfo (d : Option PyLit)
deriving DecidableEq, Repr

/-- One field declaration in a class body: an entry of `__annotations__`
plus the optional assigned value. -/
structure FieldDecl where
  name : String
  ann : TypeExpr
  default : Option DefaultVal
deriving DecidableEq, Repr

/-- A field of a *generated* pydantic model: resolved annotation plus the
namespace value that determines its default. -/
structure FieldSpec where
  name : String
  ann : TypeExpr
  default : Option DefaultVal
deriving DecidableEq, Repr

/-- pydantic's `extra` configuration value. -/
inductive Extra where
  | forbid
  | ignore
  | allow
deriving DecidableEq, Repr

/-- One canonical model declaration: its bases are indices of earlier
declarations (an empty list means the declaration subclasses the root
`DualBaseModel` directly); `configExtra` is the `extra` key of a `Config` /
`model_config` attribute in the class body, if any; `kwargsExtra` is an
`extra=...` class keyword argument, if any. -/
structure ModelDecl where
  name : String
  bases : List Nat
  fields : List FieldDecl
  configExtra : Option Extra
  kwargsExtra : Option Extra
deriving DecidableEq, Repr

/-- The program: canonical model declarations in definition order. -/
abbrev Env := List ModelDecl

/-- Whether a generated field is required (pydantic: no usable default):
no namespace value, or a `FieldInfo` whose default is `PydanticUndefined`. -/
def requiredB (d : Option DefaultVal) : Bool :=
  match d with
  | none => true
  | some (.fieldInfo none) => true
  | some _ => false

/-- `_replace_with_or_none(val)` (lines 44-51): a `FieldInfo` whose default
is `PydanticUndefined` makes the function fall off its end and return
Python `None` (which, as a namespace value, gives the field default
`None`); every other value is returned unchanged.  Combined with the
`patch_attrs |= {key: None ...}` step (lines 255-260) that gives fields
with no namespace value the value `None`, this yields the namespace value
of a field on the PatchRequest variant. -/
def patchDefault (d : Option DefaultVal) : Option DefaultVal :=
  match d with
  | none => some (.plain .noneL)
  | some (.plain v) => some (.plain v)
  | some (.fieldInfo none) => some (.plain .noneL)
  | some (.fieldInfo (some v)) => some (.fieldInfo (some v))

/-- `_alter_attrs` for the Request/Response targets (lines 87-90): the
annotation is resolved against the target variant; the namespace value (and
hence the default) is untouched. -/
def plainXform (w : Which) (f : FieldDecl) : FieldSpec :=
  ⟨f.name, resolveAnn f.ann w, f.default⟩

/-- First argument of a `TEList`, with a dummy for the empty list (Python's
`Annotated` always has at least two arguments). -/
def TEList.headD : TEList → TypeExpr
  | .nil => .prim "Never"
  | .cons t _ => t

/-- Tail of a `TEList`. -/
def TEList.tailL : TEList → TEList
  | .nil => .nil
  | .cons _ ts => ts

/-- `_alter_attrs` for the PatchRequest target (lines 91-105), applied to
the `patch_attrs` namespace built in `_generate_alternative_classes`
(lines 249-260): the annotation is resolved against `__patch_request__`;
then an `Annotated[...]` gets its first argument wrapped in `Optional`,
a string forward reference `s` becomes the string `Optional[s]`, a
`Literal` with exactly one value keeps its annotation but the namespace
value is overwritten with that literal value (so the field is no longer
required), and every other annotation is wrapped in `Optional`. -/
def patchField (f : FieldDecl) : FieldSpec :=
  match resolveAnn f.ann .patch with
  | .annotatedT args =>
    ⟨f.name, .annotatedT (.cons (mkOptional args.headD) args.tailL), patchDefault f.default⟩
  | .strRef s => ⟨f.name, .strRef ("Optional[" ++ s ++ "]"), patchDefault f.default⟩
  | .litT vals =>
    if vals.length = 1 then ⟨f.name, .litT vals, some (.plain (vals.headD .noneL))⟩
    else ⟨f.name, mkOptional (.litT vals), patchDefault f.default⟩
  | t => ⟨f.name, mkOptional t, patchDefault f.default⟩

/-- The per-variant transform applied to an own (declared) field. -/
def fieldXform (w : Which) (f : FieldDecl) : FieldSpec :=
  match w with
  | .patch => patchField f
  | w => plainXform w f

/-- `dict.update` on field lists keyed by name: keys already present keep
their position and receive the updating value; new keys are appended in
order.  This is how pydantic accumulates `model_fields` along the MRO. -/
def updFS (old upd : List FieldSpec) : List FieldSpec :=
  old.map (fun f => ((upd.find? (fun g => g.name = f.name)).getD f)) ++
    upd.filter (fun g => old.all (fun f => f.name ≠ g.name))

/-- `dict.update` on raw field declarations (same semantics as `updFS`). -/
def updFD (old upd : List FieldDecl) : List FieldDecl :=
  old.map (fun f => ((upd.find? (fun g => g.name = f.name)).getD f)) ++
    upd.filter (fun g => old.all (fun f => f.name ≠ g.name))

/-- Everything the metaclass produces for one canonical model: the merged
raw declarations (inherited then own) and, for each generated variant, its
field set and effective `extra` configuration. -/
structure Built where
  merged : List FieldDecl
  reqFields : List FieldSpec
  respFields : List FieldSpec
  patchFields : List FieldSpec
  reqExtra : Extra
  respExtra : Extra
  patchExtra : Extra
deriving DecidableEq, Repr

/-- The root bases produced by `_generate_base_alternative_classes`
(lines 195-217): `BaseRequest` has `extra="forbid"`, `BaseResponse` has
`extra="ignore"`, and the root's `__patch_request__` *is* `BaseRequest`,
so the PatchRequest chain starts from `forbid` as well.  No fields. -/
def rootBuilt : Built :=
  ⟨[], [], [], [], .forbid, .ignore, .forbid⟩

/-- Default `extra` of the base class each variant chain starts from. -/
def rootExtra (w : Which) : Extra :=
  match w with
  | .response => .ignore
  | _ => .forbid

/-- Field set of a `Built` for a given variant. -/
def Built.fieldsOf (b : Built) (w : Which) : List FieldSpec :=
  match w with
  | .request => b.reqFields
  | .response => b.respFields
  | .patch => b.patchFields

/-- Effective `extra` of a `Built` for a given variant. -/
def Built.extraOf (b : Built) (w : Which) : Extra :=
  match w with
  | .request => b.reqExtra
  | .response => b.respExtra
  | .patch => b.patchExtra

/-- Inherited field set for one variant: pydantic collects fields along the
reverse MRO, so with bases `B1 ... Bn` the fields of `Bn` are seen first
and every earlier base updates them — the leftmost base wins, and the
class's own namespace wins over all bases. -/
def inheritedFS (prev : List Built) (w : Which) (bases : List Nat) : List FieldSpec :=
  bases.reverse.foldl (fun acc b => updFS acc (((prev.get? b).getD rootBuilt).fieldsOf w)) []

/-- Inherited raw declarations, merged the same way. -/
def inheritedFD (prev : List Built) (bases : List Nat) : List FieldDecl :=
  bases.reverse.foldl (fun acc b => updFD acc (((prev.get? b).getD rootBuilt).merged)) []

/-- Inherited `extra` for one variant: pydantic's `ConfigWrapper.for_model`
updates the config dict with each base's `model_config` in declaration
order, so the *last* base wins; with no bases the chain starts at the root
base class of the variant. -/
def inheritedExtra (prev : List Built) (w : Which) (bases : List Nat) : Extra :=
  match bases.getLast? with
  | some b => ((prev.get? b).getD rootBuilt).extraOf w
  | none => rootExtra w

/-- Effective `extra` of the generated variant for one declaration:
the namespace `Config`/`model_config` overrides the inherited value, and a
class keyword argument overrides both — except that
`_generate_alternative_classes` (lines 230-232, 270) rewrites an `extra`
keyword argument to `"forbid"` for the Request and PatchRequest variants
(`request_kwargs["extra"] = "forbid"`); only the Response variant receives
the keyword argument unchanged. -/
def effectiveExtra (prev : List Built) (w : Which) (d : ModelDecl) : Extra :=
  let base := d.configExtra.getD (inheritedExtra prev w d.bases)
  match d.kwargsExtra with
  | none => base
  | some e =>
    match w with
    | .response => e
    | _ => .forbid

/-- `DualBaseModelMeta.__new__` for one non-root declaration, given the
`Built` results of all earlier declarations. -/
def buildOne (prev : List Built) (d : ModelDecl) : Built :=
  { merged := updFD (inheritedFD prev d.bases) d.fields
    reqFields := updFS (inheritedFS prev .request d.bases) (d.fields.map (fieldXform .request))
    respFields := updFS (inheritedFS prev .response d.bases) (d.fields.map (fieldXform .response))
    patchFields := updFS (inheritedFS prev .patch d.bases) (d.fields.map (fieldXform .patch))
    reqExtra := effectiveExtra prev .request d
    respExtra := effectiveExtra prev .response d
    patchExtra := effectiveExtra prev .patch d }

/-- Process the declarations in order, accumulating the built models. -/
def buildAllAux (acc : List Built) : Env → List Built
  | [] => acc
  | d :: rest => buildAllAux (acc ++ [buildOne acc d]) rest

/-- The metaclass run over a whole program. -/
def buildAll (env : Env) : List Built :=
  buildAllAux [] env

/-- Bases refer only to earlier declarations (in Python the base class
object must already exist when the subclass statement runs). -/
def basesWFB (env : Env) : Bool :=
  env.enum.all (fun p => p.2.bases.all (fun b => b < p.1))

/-- Well-formedness of one declaration: field names are distinct and every
declared annotation is a type expression a schema author can write. -/
def declWF (d : ModelDecl) : Bool :=
  ((d.fields.map (·.name)).Nodup : Bool) && d.fields.all (fun f => annWF f.ann)

/-- Well-formedness of a whole program. -/
def envWF (env : Env) : Bool :=
  basesWFB env && env.all declWF

mutual
/-- Python runtime values appearing in parsed mappings. -/
inductive PyVal where
  | vStr (s : String)
  | vInt (n : Int)
  | vBool (b : Bool)
  | vNone
  | vList (xs : PyValList)
  | vDict (es : PyDict)
deriving DecidableEq, Repr

/-- Lists of values (mutual with `PyVal`). -/
inductive PyValList where
  | nil
  | cons (v : PyVal) (vs : PyValList)
deriving DecidableEq, Repr

/-- String-keyed mappings of values (mutual with `PyVal`). -/
inductive PyDict where
  | nil
  | cons (k : String) (v : PyVal) (rest : PyDict)
deriving DecidableEq, Repr
end

/-- Literal constants as runtime values. -/
def litToVal : PyLit → PyVal
  | .intL n => .vInt n
  | .strL s => .vStr s
  | .noneL => .vNone
  | .boolL b => .vBool b

/-- Does the mapping contain the key? -/
def PyDict.hasKey (d : PyDict) (k : String) : Bool :=
  match d with
  | .nil => false
  | .cons k' _ rest => (k' = k) || rest.hasKey k

/-- Append two mappings. -/
def PyDict.app : PyDict → PyDict → PyDict
  | .nil, d => d
  | .cons k v rest, d => .cons k v (PyDict.app rest d)

/-- Keep only the entries whose key satisfies the predicate. -/
def PyDict.filterKeys (p : String → Bool) : PyDict → PyDict
  | .nil => .nil
  | .cons k v rest =>
    if p k then .cons k v (PyDict.filterKeys p rest)
    else PyDict.filterKeys p rest

/-- Shape check for primitive annotations; names the code does not inspect
are opaque and accept anything. -/
def checkPrim (n : String) (v : PyVal) : Bool :=
  match n with
  | "str" => match v with | .vStr _ => true | _ => false
  | "int" => match v with | .vInt _ => true | _ => false
  | "bool" => match v with | .vBool _ => true | _ => false
  | "None" => match v with | .vNone => true | _ => false
  | _ => true

/-- Field set of the generated variant `w` of model `m`. -/
def variantFieldsOf (env : Env) (m : Nat) (w : Which) : List FieldSpec :=
  (((buildAll env).get? m).getD rootBuilt).fieldsOf w

/-- Effective `extra` of the generated variant `w` of model `m`. -/
def variantExtraOf (env : Env) (m : Nat) (w : Which) : Extra :=
  (((buildAll env).get? m).getD rootBuilt).extraOf w

/-- Values of the defaulted fields that are absent from the input: pydantic
fills them into the constructed instance. -/
def defaultsFill (flds : List FieldSpec) (inp : PyDict) : PyDict :=
  match flds with
  | [] => .nil
  | f :: rest =>
    if inp.hasKey f.name then defaultsFill rest inp
    else
      match f.default with
      | some (.plain v) => .cons f.name (litToVal v) (defaultsFill rest inp)
      | some (.fieldInfo (some v)) => .cons f.name (litToVal v) (defaultsFill rest inp)
      | _ => defaultsFill rest inp

/-- Are all required fields present in the input? -/
def requiredOk (flds : List FieldSpec) (inp : PyDict) : Bool :=
  flds.all (fun f => !(requiredB f.default) || inp.hasKey f.name)

/-- Processing of a single input entry, given the field (if any) declared
under its key, the entry's shape check, and the result of processing the
remaining entries: a declared key must pass its field's shape check and is
kept; an unrecognized key is an error under `extra="forbid"`, dropped under
`extra="ignore"` and kept under `extra="allow"`. -/
def parseStep (extra : Extra) (k : String) (v : PyVal) (found : Option FieldSpec)
    (chk : FieldSpec → Bool) (restRes : Option PyDict) : Option PyDict :=
  match found with
  | some f => if chk f then restRes.map (.cons k v) else none
  | none =>
    match extra with
    | .forbid => none
    | .ignore => restRes
    | .allow => restRes.map (.cons k v)

mutual
/-- Value-against-annotation shape check performed by the validator for one
field.  A reference to a generated variant validates a mapping against that
variant's field set and `extra` policy, recursively; an unresolved
canonical-model reference is not a functioning pydantic model (the
canonical class is produced by `type.__new__`, not by `ModelMetaclass`) and
validates nothing; `Union` tries the members in order; `Annotated` checks
its first argument; `Literal` compares against the allowed constants;
string forward references and opaque objects are outside the model and
accept anything. -/
def checkVal (env : Env) : TypeExpr → PyVal → Bool
  | .prim n, v => checkPrim n v
  | .dualRef _, _ => false
  | .variantRef m w, .vDict es =>
    (parseMap env (variantFieldsOf env m w) (variantExtraOf env m w) es).isSome
  | .variantRef _ _, _ => false
  | .plainModel _, _ => true
  | .genericAlias o args, v => checkGeneric env o args v
  | .typingAlias o args, v => checkGeneric env o args v
  | .unionT ms, v => checkAnyL env ms v
  | .annotatedT (.cons t _), v => checkVal env t v
  | .annotatedT .nil, _ => true
  | .litT vals, v => vals.any (fun l => litToVal l = v)
  | .strRef _, _ => true
  | .metaObj _, _ => true
termination_by t v => (sizeOf v, 0, sizeOf t)
decreasing_by
  all_goals simp_wf
  all_goals simp [Prod.lex_def]
  all_goals omega

/-- Shape check for generic containers: `list`-like origins check every
element, `dict`-like origins check every entry value; other origins are
opaque. -/
def checkGeneric (env : Env) (o : String) (args : TEList) (v : PyVal) : Bool :=
  if o = "list" then
    match v, args with
    | .vList xs, .cons t _ => checkListVals env t xs
    | .vList _, .nil => true
    | _, _ => false
  else if o = "dict" then
    match v, args with
    | .vDict es, .cons _ (.cons tv _) => checkDictVals env tv es
    | .vDict _, _ => true
    | _, _ => false
  else true
termination_by (sizeOf v, 0, sizeOf args)
decreasing_by
  all_goals simp_wf
  all_goals simp [Prod.lex_def]
  all_goals omega

/-- Every element checks against the element annotation. -/
def checkListVals (env : Env) (t : TypeExpr) : PyValList → Bool
  | .nil => true
  | .cons v vs => checkVal env t v && checkListVals env t vs
termination_by vs => (sizeOf vs, 1, sizeOf t)
decreasing_by
  all_goals simp_wf
  all_goals simp [Prod.lex_def]
  all_goals omega

/-- Every entry value checks against the value annotation. -/
def checkDictVals (env : Env) (t : TypeExpr) : PyDict → Bool
  | .nil => true
  | .cons _ v rest => checkVal env t v && checkDictVals env t rest
termination_by es => (sizeOf es, 1, sizeOf t)
decreasing_by
  all_goals simp_wf
  all_goals simp [Prod.lex_def]
  all_goals omega

/-- Some union member accepts the value. -/
def checkAnyL (env : Env) : TEList → PyVal → Bool
  | .nil, _ => false
  | .cons t ts, v => checkVal env t v || checkAnyL env ts v
termination_by ts v => (sizeOf v, 0, sizeOf ts)
decreasing_by
  all_goals simp_wf
  all_goals simp [Prod.lex_def]
  all_goals omega

/-- Walk the input entries: a declared key's value must pass its field's
shape check and is kept; an unrecognized key is an error under
`extra="forbid"`, dropped under `extra="ignore"` and kept under
`extra="allow"`. -/
def parseEntries (env : Env) (flds : List FieldSpec) (extra : Extra) : PyDict → Option PyDict
  | .nil => some .nil
  | .cons k v rest =>
    parseStep extra k v (flds.find? (fun f => f.name = k))
      (fun f => checkVal env f.ann v) (parseEntries env flds extra rest)
termination_by inp => (sizeOf inp, 1, 0)
decreasing_by
  all_goals simp_wf
  all_goals simp [Prod.lex_def]
  all_goals omega

/-- `parse` of a mapping against a generated variant: all required fields
must be present, each entry is processed per `parseEntries`, and absent
defaulted fields are filled in. -/
def parseMap (env : Env) (flds : List FieldSpec) (extra : Extra) (inp : PyDict) : Option PyDict :=
  if requiredOk flds inp then
    (parseEntries env flds extra inp).map (fun kept => kept.app (defaultsFill flds inp))
  else none
termination_by (sizeOf inp, 2, 0)
decreasing_by
  all_goals simp_wf
  all_goals simp [Prod.lex_def]
  all_goals omega
end

/-- Validation of a mapping by the generated variant `w` of model `m`:
`some` is a successful parse (with the resulting field assignment),
`none` is a `ValidationError`. -/
def parseVariant (env : Env) (m : Nat) (w : Which) (inp : PyDict) : Option PyDict :=
  parseMap env (variantFieldsOf env m w) (variantExtraOf env m w) inp

/-- The classes living in a program run: the canonical model classes (whose
metaclass is `DualBaseModelMeta`), their generated variants (plain
`ModelMetaclass` instances), the root `DualBaseModel` and its generated
`BaseRequest`/`BaseResponse`, `pydantic.BaseModel`, `object`, plain
pydantic model classes and arbitrary non-model classes. -/
inductive PyClass where
  | canonical (i : Nat)
  | variantCls (i : Nat) (w : Which)
  | rootCanonical
  | baseRequest
  | baseResponse
  | pyBaseModel
  | pyObject
  | plainCls (n : String)
  | otherCls (n : String)
deriving DecidableEq, Repr

/-- The (order-irrelevant) MRO contents of one canonical model and of its
three variants. -/
structure AncSet where
  canonAnc : List PyClass
  reqAnc : List PyClass
  respAnc : List PyClass
  patchAnc : List PyClass
deriving DecidableEq, Repr

/-- MROs of the root `DualBaseModel` and its generated bases: note that the
root's `__patch_request__` *is* `BaseRequest` (line 217), so the patch
chain starts at `BaseRequest`. -/
def rootAnc : AncSet :=
  ⟨[.rootCanonical, .pyBaseModel, .pyObject],
   [.baseRequest, .pyBaseModel, .pyObject],
   [.baseResponse, .pyBaseModel, .pyObject],
   [.baseRequest, .pyBaseModel, .pyObject]⟩

/-- Variant projection of an `AncSet`. -/
def AncSet.ancOf (a : AncSet) (w : Which) : List PyClass :=
  match w with
  | .request => a.reqAnc
  | .response => a.respAnc
  | .patch => a.patchAnc

/-- MROs of the model with index `i`: the canonical class inherits from its
declared (canonical) bases, or from the root `DualBaseModel` when none are
declared; each generated variant inherits from the bases' same-target
variants (`_resolve_annotation(b, attr)` on lines 229, 244, 266). -/
def ancOne (prev : List AncSet) (i : Nat) (d : ModelDecl) : AncSet :=
  let baseAncs := if d.bases.isEmpty then [rootAnc]
    else d.bases.map (fun b => (prev.get? b).getD rootAnc)
  ⟨.canonical i :: (baseAncs.map (·.canonAnc)).flatten,
   .variantCls i .request :: (baseAncs.map (·.reqAnc)).flatten,
   .variantCls i .response :: (baseAncs.map (·.respAnc)).flatten,
   .variantCls i .patch :: (baseAncs.map (·.patchAnc)).flatten⟩

/-- Accumulate MROs in declaration order. -/
def ancAllAux (acc : List AncSet) : Env → List AncSet
  | [] => acc
  | d :: rest => ancAllAux (acc ++ [ancOne acc acc.length d]) rest

/-- MROs of every model of the program. -/
def ancAll (env : Env) : List AncSet :=
  ancAllAux [] env

/-- The MRO contents of any class of the run. -/
def ancestorsOf (env : Env) : PyClass → List PyClass
  | .canonical i => (((ancAll env).get? i).getD rootAnc).canonAnc
  | .variantCls i w => ((((ancAll env).get? i).getD rootAnc).ancOf w)
  | .rootCanonical => rootAnc.canonAnc
  | .baseRequest => [.baseRequest, .pyBaseModel, .pyObject]
  | .baseResponse => [.baseResponse, .pyBaseModel, .pyObject]
  | .pyBaseModel => [.pyBaseModel, .pyObject]
  | .pyObject => [.pyObject]
  | .plainCls n => [.plainCls n, .pyBaseModel, .pyObject]
  | .otherCls n => [.otherCls n, .pyObject]

/-- Ordinary `type.__subclasscheck__`: membership of the candidate
superclass in the subclass's MRO. -/
def plainSubB (env : Env) (sub cls : PyClass) : Bool :=
  (ancestorsOf env sub).any (fun x => x = cls)

/-- Is the class an instance of `DualBaseModelMeta`?  Only the canonical
classes and the root `DualBaseModel` are; generated variants are built by
calling `ModelMetaclass` directly. -/
def isDualMeta : PyClass → Bool
  | .canonical _ => true
  | .rootCanonical => true
  | _ => false

/-- `DualBaseModelMeta.__subclasscheck__` (lines 307-310): the ordinary
check against the class itself, or against any of its `__request__`,
`__response__`, `__patch_request__`.  Checks against non-dual classes use
the ordinary rule only. -/
def issubclassB (env : Env) (sub cls : PyClass) : Bool :=
  match cls with
  | .canonical i =>
    plainSubB env sub (.canonical i) || plainSubB env sub (.variantCls i .request) ||
      plainSubB env sub (.variantCls i .response) || plainSubB env sub (.variantCls i .patch)
  | .rootCanonical =>
    plainSubB env sub .rootCanonical || plainSubB env sub .baseRequest ||
      plainSubB env sub .baseResponse
  | c => plainSubB env sub c

/-- `DualBaseModelMeta.__instancecheck__` (lines 302-305), with an instance
represented by its concrete class: ordinary `type.__instancecheck__`
against the class itself, or `isinstance` against any of the three
variants. -/
def isinstanceB (env : Env) (instCls cls : PyClass) : Bool :=
  issubclassB env instCls cls

/-- `DualBaseModelMeta.__eq__` (lines 293-297) with the dual class as the
left operand: another `DualBaseModelMeta` instance is compared by class
identity (`super().__eq__`); any other object is compared against
`self.__request__` (again by class identity, since the variants are plain
classes). -/
def dualEqL : PyClass → PyClass → Bool
  | .canonical i, .canonical j => decide (i = j)
  | .canonical _, .rootCanonical => false
  | .rootCanonical, .canonical _ => false
  | .rootCanonical, .rootCanonical => true
  | .canonical i, x => decide (x = .variantCls i .request)
  | .rootCanonical, x => decide (x = .baseRequest)
  | _, _ => false

/-- Python `==` between classes of the run: if either side is a
`DualBaseModelMeta` instance its `__eq__` decides (plain classes return
`NotImplemented` against a foreign class, so the dual side's reflected
`__eq__` is used); otherwise identity. -/
def pyEq (a b : PyClass) : Bool :=
  if isDualMeta a then dualEqL a b
  else if isDualMeta b then dualEqL b a
  else a = b

/-- `DualBaseModelMeta.__hash__` (lines 299-300) returns
`hash(self.__request__)`; we model hash values by the class object whose
builtin identity hash is used, so canonical classes hash like their
Request variant and every other class hashes as itself. -/
def pyHash : PyClass → PyClass
  | .canonical i => .variantCls i .request
  | .rootCanonical => .baseRequest
  | c => c

/-- Class-level access to `__request__`/`__response__`/`__patch_request__`
through `DualBaseModelMeta.__getattribute__` (lines 276-285) and the
attributes installed by the metaclass: on a canonical class, `__request__`
is in the allow-list and the other two are looked up on the Request
variant, all three yielding that model's variants; on a generated Request
variant, `__response__`/`__patch_request__` hit the `cached_classproperty`
(lines 239-248, 261-272) while `__request__` was never set on it and falls
through the MRO to `BaseRequest.__request__ = BaseRequest` (line 215); on
a produced Response/PatchRequest variant the wrapper of
`_lazily_initalize_models` (lines 113-122) installed all three
back-references; on `BaseRequest` the three attributes are set by lines
215-217; `BaseResponse` has none of them (AttributeError). -/
def facadeVariantAttr : PyClass → Which → Option PyClass
  | .canonical i, w => some (.variantCls i w)
  | .variantCls i .request, w =>
    match w with
    | .request => some .baseRequest
    | w => some (.variantCls i w)
  | .variantCls i _, w => some (.variantCls i w)
  | .rootCanonical, w =>
    match w with
    | .response => some .baseResponse
    | _ => some .baseRequest
  | .baseRequest, w =>
    match w with
    | .response => some .baseResponse
    | _ => some .baseRequest
  | _, _ => none

/-- Calling a generated variant class validates the arguments against that
variant; calling any other plain class is outside the model. -/
def pyCallClass (env : Env) (c : PyClass) (inp : PyDict) : Option (PyClass × PyDict) :=
  match c with
  | .variantCls i w => (parseVariant env i w inp).map (fun out => (.variantCls i w, out))
  | _ => none

/-- Construction: `DualBaseModel.__new__` (lines 338-339) returns
`cls.__request__(*args, **kwargs)`, so calling a canonical class looks up
`__request__` through the facade and calls the Request variant; calling a
variant class validates directly. -/
def pyConstruct (env : Env) (c : PyClass) (inp : PyDict) : Option (PyClass × PyDict) :=
  match c with
  | .canonical i => (facadeVariantAttr (.canonical i) .request).bind (fun rc => pyCallClass env rc inp)
  | c => pyCallClass env c inp

/-- Positions in the attribute-access graph of one canonical model `M`:
the canonical class, its three variants, and the generated root bases
reachable by `M.__request__.__request__`. -/
inductive Pos where
  | canonicalP
  | reqP
  | respP
  | patchP
  | baseReqP
  | baseRespP
deriving DecidableEq, Repr

/-- The lazy-construction state of one canonical model: the
`cached_classproperty` slots for `__response__` and `__patch_request__`
(holding the identity of the constructed class object when filled) and a
counter supplying fresh object identities. -/
structure LazyState where
  respObj : Option Nat
  patchObj : Option Nat
  nextFresh : Nat
deriving DecidableEq, Repr

/-- Identity of the eagerly-built Request class. -/
def reqObjId : Nat := 0

/-- Identity of the canonical class itself. -/
def canonObjId : Nat := 1

/-- Identity of the root `BaseRequest` class. -/
def baseReqObjId : Nat := 2

/-- Identity of the root `BaseResponse` class. -/
def baseRespObjId : Nat := 3

/-- State right after the model definition ran: the Request variant is
built, the two lazy slots are empty. -/
def freshState : LazyState := ⟨none, none, 4⟩

/-- First access to `__response__` runs the synthesis thunk and caches the
produced object; later accesses return the cached identity. -/
def getRespC (s : LazyState) : Nat × LazyState :=
  match s.respObj with
  | some o => (o, s)
  | none => (s.nextFresh, ⟨some s.nextFresh, s.patchObj, s.nextFresh + 1⟩)

/-- Same for `__patch_request__`. -/
def getPatchC (s : LazyState) : Nat × LazyState :=
  match s.patchObj with
  | some o => (o, s)
  | none => (s.nextFresh, ⟨s.respObj, some s.nextFresh, s.nextFresh + 1⟩)

/-- One attribute access (`__request__` / `__response__` /
`__patch_request__`) from a position, with its effect on the lazy state:
the canonical class forwards to the Request class's attributes (lines
276-285); the Request class's `__response__`/`__patch_request__` are its
`cached_classproperty` slots while its `__request__` falls through the MRO
to `BaseRequest`; produced variants have all three back-references
installed by `_lazily_initalize_models`, the lazy two delegating to the
Request class's slots; `BaseRequest`'s attributes are the fixed root
classes; `BaseResponse` has none of the three attributes, so any access
from it raises `AttributeError` (`none`). -/
def accessAttr (p : Pos) (w : Which) (s : LazyState) : Option ((Pos × Nat) × LazyState) :=
  match p, w with
  | .canonicalP, .request => some ((.reqP, reqObjId), s)
  | .canonicalP, .response => some (((.respP, (getRespC s).1), (getRespC s).2))
  | .canonicalP, .patch => some (((.patchP, (getPatchC s).1), (getPatchC s).2))
  | .reqP, .request => some ((.baseReqP, baseReqObjId), s)
  | .reqP, .response => some (((.respP, (getRespC s).1), (getRespC s).2))
  | .reqP, .patch => some (((.patchP, (getPatchC s).1), (getPatchC s).2))
  | .respP, .request => some ((.reqP, reqObjId), s)
  | .respP, .response => some (((.respP, (getRespC s).1), (getRespC s).2))
  | .respP, .patch => some (((.patchP, (getPatchC s).1), (getPatchC s).2))
  | .patchP, .request => some ((.reqP, reqObjId), s)
  | .patchP, .response => some (((.respP, (getRespC s).1), (getRespC s).2))
  | .patchP, .patch => some (((.patchP, (getPatchC s).1), (getPatchC s).2))
  | .baseReqP, .request => some ((.baseReqP, baseReqObjId), s)
  | .baseReqP, .response => some ((.baseRespP, baseRespObjId), s)
  | .baseReqP, .patch => some ((.baseReqP, baseReqObjId), s)
  | .baseRespP, _ => none

/-- A chain of attribute accesses from a given object. -/
def accessChainAux : List Which → (Pos × Nat) → LazyState → Option ((Pos × Nat) × LazyState)
  | [], o, s => some (o, s)
  | w :: ws, o, s =>
    match accessAttr o.1 w s with
    | some (o', s') => accessChainAux ws o' s'
    | none => none

/-- A chain of attribute accesses starting at the canonical class `M`. -/
def accessChain (ws : List Which) (s : LazyState) : Option ((Pos × Nat) × LazyState) :=
  accessChainAux ws (.canonicalP, canonObjId) s

/-- What a base of a class statement under `DualBaseModelMeta` can be. -/
inductive BaseRef where
  | bBaseModel
  | bRootDual
  | bDual (i : Nat)
  | bPlainModel (n : String)
  | bNonModel (n : String)
deriving DecidableEq, Repr

/-- A raw class statement as `DualBaseModelMeta.__new__` receives it:
bases, whether the namespace has a `model_config` attribute and whether
that attribute is a dictionary, and the three suffix keyword arguments. -/
structure RawDecl where
  bases : List BaseRef
  hasModelConfig : Bool
  modelConfigIsDict : Bool
  reqSuffix : Option String
  respSuffix : Option String
  patchSuffix : Option String
deriving DecidableEq, Repr

/-- Is the base an instance of `ModelMetaclass` (or of its subclass
`DualBaseModelMeta`)? -/
def BaseRef.isModelMeta : BaseRef → Bool
  | .bNonModel _ => false
  | _ => true

/-- Does the base carry a `__request__` attribute in its MRO (i.e. is it a
canonical model or the root `DualBaseModel`)? -/
def BaseRef.isDualBase : BaseRef → Bool
  | .bRootDual => true
  | .bDual _ => true
  | _ => false

/-- The failures `DualBaseModelMeta.__new__` can raise at definition
time. -/
inductive NewError where
  | typeErrorNoBase
  | typeErrorNoConfig
  | typeErrorConfigNotDict
  | typeErrorNoSuffix
  | attributeErrorNoRequest
deriving DecidableEq, Repr

/-- `DualBaseModelMeta.__new__` (lines 133-193), outcome only: with no
base that is a `ModelMetaclass` instance it raises `TypeError`; with bases
exactly `(BaseModel,)` it requires a `model_config` namespace attribute,
that it be a dictionary, and all three suffix keyword arguments; otherwise
(the subclass branch) each suffix keyword that was not passed is read as
`new_class.<suffix>` which goes through
`DualBaseModelMeta.__getattribute__` and needs a `__request__` attribute
in the MRO — if no base is a canonical model (or the root), that lookup
raises `AttributeError`.  Declarations that Python's own class machinery
rejects before this method's checks run — duplicate bases, or a base
listed before one of its own subclasses, which make `type.__new__` itself
raise — are outside this model. -/
def newModelCheck (d : RawDecl) : Option NewError :=
  if !(d.bases.any BaseRef.isModelMeta) then some .typeErrorNoBase
  else if d.bases = [.bBaseModel] then
    if !d.hasModelConfig then some .typeErrorNoConfig
    else if !d.modelConfigIsDict then some .typeErrorConfigNotDict
    else if d.reqSuffix.isNone || d.respSuffix.isNone || d.patchSuffix.isNone then
      some .typeErrorNoSuffix
    else none
  else
    if (d.reqSuffix.isNone || d.respSuffix.isNone || d.patchSuffix.isNone) &&
        !(d.bases.any BaseRef.isDualBase) then
      some .attributeErrorNoRequest
    else none

mutual
/-- Left inverse of request-target resolution on well-formed declared
annotations: turns references to the `w` variant back into canonical-model
references. -/
def unresolveW (w : Which) : TypeExpr → TypeExpr
  | .variantRef m w' => if w' = w then .dualRef m else .variantRef m w'
  | .dualRef m => .dualRef m
  | .annotatedT args => .annotatedT (unresolveWList w args)
  | .genericAlias o args => .genericAlias o (unresolveWList w args)
  | .typingAlias o args => .typingAlias o (unresolveWList w args)
  | .unionT ms => .unionT (unresolveWList w ms)
  | .plainModel n => .plainModel n
  | .prim n => .prim n
  | .litT vs => .litT vs
  | .strRef s => .strRef s
  | .metaObj t => .metaObj t

/-- Pointwise `unresolveW`. -/
def unresolveWList (w : Which) : TEList → TEList
  | .nil => .nil
  | .cons t ts => .cons (unresolveW w t) (unresolveWList w ts)
end

/-- The PatchRequest field a Request field gives rise to, as a function of
the built Request field: the Request-resolved annotation is retargeted to
the PatchRequest variant and wrapped per `_alter_attrs`, and the default
follows `patch_attrs`. -/
def patchFromRequestField (s : FieldSpec) : FieldSpec :=
  match s.ann with
  | .annotatedT args =>
    ⟨s.name, .annotatedT (.cons (mkOptional (retarget args.headD)) (retargetList args.tailL)),
      patchDefault s.default⟩
  | .strRef str => ⟨s.name, .strRef ("Optional[" ++ str ++ "]"), patchDefault s.default⟩
  | .litT vals =>
    if vals.length = 1 then ⟨s.name, .litT vals, some (.plain (vals.headD .noneL))⟩
    else ⟨s.name, mkOptional (.litT vals), patchDefault s.default⟩
  | t => ⟨s.name, mkOptional (retarget t), patchDefault s.default⟩

/-- The PatchRequest field the specification claims a Request field gives
rise to (claim C1, taken verbatim from the spec): the type is wrapped
nullable with nested canonical-model references replaced by their
PatchRequest variants, and the default is null *irrespective of the
field's original default*. -/
def specClaimC1Field (s : FieldSpec) : FieldSpec :=
  ⟨s.name, mkOptional (retarget s.ann), some (.plain .noneL)⟩

/-- Claim C8, case (a): the declaration has no model-metaclass base at
all. -/
def c8CaseNoModelBase (d : RawDecl) : Bool :=
  !(d.bases.any BaseRef.isModelMeta)

/-- Claim C8, case (b): a root declaration directly on the base model
lacking a validation config. -/
def c8CaseRootNoConfig (d : RawDecl) : Bool :=
  d.bases = [.bBaseModel] && !d.hasModelConfig

/-- Claim C8, case (c): the config payload is malformed (not a
dictionary). -/
def c8CaseRootConfigNotDict (d : RawDecl) : Bool :=
  d.bases = [.bBaseModel] && d.hasModelConfig && !d.modelConfigIsDict

/-- Claim C8, case (d): one of the three variant suffix names is missing
on the root declaration. -/
def c8CaseRootNoSuffix (d : RawDecl) : Bool :=
  d.bases = [.bBaseModel] &&
    (d.reqSuffix.isNone || d.respSuffix.isNone || d.patchSuffix.isNone)

/-- Are all keys of the mapping declared field names? -/
def allKeysDeclared (flds : List FieldSpec) : PyDict → Bool
  | .nil => true
  | .cons k _ rest =>
    (flds.find? (fun f => f.name = k)).isSome && allKeysDeclared flds rest

/-- Do all present declared fields pass their shape check? -/
def entriesCheckB (env : Env) (flds : List FieldSpec) : PyDict → Bool
  | .nil => true
  | .cons k v rest =>
    (match flds.find? (fun f => f.name = k) with
     | some f => checkVal env f.ann v
     | none => true) && entriesCheckB env flds rest

/-- A mapping of "correct shape" for a field set: only declared keys, all
required fields present, and every present value passes its field's shape
check. -/
def wellShaped (env : Env) (flds : List FieldSpec) (inp : PyDict) : Bool :=
  allKeysDeclared flds inp && requiredOk flds inp && entriesCheckB env flds inp

/-- No declaration of the program carries an explicit `extra`
configuration (neither a `Config`/`model_config` attribute nor a class
keyword argument). -/
def noExtraOverrides (env : Env) : Bool :=
  env.all (fun d => d.configExtra.isNone && d.kwargsExtra.isNone)

/-- Example program: one model with a defaulted `int` field and a required
`str` field. -/
def exEnvDefault : Env :=
  [⟨"M", [], [⟨"x", .prim "int", some (.plain (.intL 5))⟩, ⟨"y", .prim "str", none⟩],
    none, none⟩]

/-- Example program for C2: one model declared with the class keyword
argument `extra=Extra.ignore` (as in `test_config_defined_in_kwargs`). -/
def exEnvKwargs : Env :=
  [⟨"Schema", [], [⟨"field", .prim "int", none⟩], none, some .ignore⟩]

/-- Example program for C4: one model with a single-valued `Literal` tag
field and an ordinary field (as in `ChildSchema1` of the test suite). -/
def exEnvLiteral : Env :=
  [⟨"ChildSchema1", [], [⟨"object_type", .litT [.strL "a"], none⟩, ⟨"obj", .prim "str", none⟩],
    none, none⟩]

/-- Example program for C7's counterexample: one model whose `Config`
declares `extra = Extra.ignore` (as in `test_config_defined_in_model`). -/
def exEnvCfgIgnore : Env :=
  [⟨"Schema", [], [⟨"field", .prim "str", none⟩], some .ignore, none⟩]

/-- Example program with inheritance: a parent with one field and a child
adding a field, plus a nested-model field on a third model. -/
def exEnvNested : Env :=
  [⟨"X", [], [⟨"x", .prim "str", none⟩], none, none⟩,
   ⟨"Pair", [], [⟨"a", .dualRef 0, none⟩, ⟨"b", .prim "str", none⟩], none, none⟩]

/-- Classes that can occur in the MRO of a *canonical* class: canonical
models, the root `DualBaseModel`, `BaseModel` and `object` — never a
generated variant. -/
def canonOnlyCls : PyClass → Bool
  | .canonical _ => true
  | .rootCanonical => true
  | .pyBaseModel => true
  | .pyObject => true
  | _ => false

/-- The definition-time failure the claim C8 does not list: a non-root
declaration whose bases are model-metaclass instances but include no
canonical model, with at least one suffix keyword omitted — the suffix
inheritance lookup `new_class.request_suffix` then raises
`AttributeError` because no `__request__` attribute exists in the MRO. -/
def c8CaseSubclassNoDual (d : RawDecl) : Bool :=
  d.bases.any BaseRef.isModelMeta && !(d.bases = [.bBaseModel]) &&
    (d.reqSuffix.isNone || d.respSuffix.isNone || d.patchSuffix.isNone) &&
    !(d.bases.any BaseRef.isDualBase)

/-- A well-formed lazy state: the fresh-identity counter has advanced
exactly once per filled cache slot, starting from `freshState`. -/
def goodState (s : LazyState) : Prop :=
  s.nextFresh = 4 + (if s.respObj.isSome then 1 else 0) + (if s.patchObj.isSome then 1 else 0)

/-- Invariant of the accumulated `Built` list: every built model's three
field sets are the image of its merged declarations under the per-variant
transform, and all merged declarations are well-formed. -/
def builtInv (bs : List Built) : Prop :=
  ∀ B ∈ bs,
    B.reqFields = B.merged.map (fieldXform .request) ∧
    B.respFields = B.merged.map (fieldXform .response) ∧
    B.patchFields = B.merged.map (fieldXform .patch) ∧
    ∀ f ∈ B.merged, annWF f.ann = true

/-! ### Lemmas about lists of type expressions and resolution -/

theorem resolveList_eq_mapF : ∀ (ts : TEList) (w : Which),
    resolveList ts w = TEList.mapF (fun t => resolveAnn t w) ts
  | .nil, _ => rfl
  | .cons t ts, w => by rw [resolveList, TEList.mapF, resolveList_eq_mapF ts w]

theorem retargetList_eq_mapF : ∀ ts : TEList, retargetList ts = TEList.mapF retarget ts
  | .nil => rfl
  | .cons t ts => by rw [retargetList, TEList.mapF, retargetList_eq_mapF ts]

theorem unresolveWList_eq_mapF (w : Which) : ∀ ts : TEList,
    unresolveWList w ts = TEList.mapF (unresolveW w) ts
  | .nil => rfl
  | .cons t ts => by rw [unresolveWList, TEList.mapF, unresolveWList_eq_mapF w ts]

theorem mapF_mapF (f g : TypeExpr → TypeExpr) : ∀ ts : TEList,
    TEList.mapF g (TEList.mapF f ts) = TEList.mapF (fun t => g (f t)) ts
  | .nil => rfl
  | .cons t ts => by rw [TEList.mapF, TEList.mapF, TEList.mapF, mapF_mapF f g ts]

theorem len_mapF (f : TypeExpr → TypeExpr) : ∀ ts : TEList,
    TEList.len (TEList.mapF f ts) = TEList.len ts
  | .nil => rfl
  | .cons t ts => by rw [TEList.mapF, TEList.len, TEList.len, len_mapF f ts]

theorem memB_mapF (f : TypeExpr → TypeExpr) (x : TypeExpr) : ∀ xs : TEList,
    TEList.memB x xs = true → TEList.memB (f x) (TEList.mapF f xs) = true
  | .nil, h => by simp [TEList.memB] at h
  | .cons t ts, h => by
    simp only [TEList.memB, TEList.mapF, Bool.or_eq_true, decide_eq_true_eq] at h ⊢
    rcases h with h | h
    · exact Or.inl (by rw [h])
    · exact Or.inr (memB_mapF f x ts h)

theorem nodupB_of_mapF (f : TypeExpr → TypeExpr) : ∀ xs : TEList,
    TEList.nodupB (TEList.mapF f xs) = true → TEList.nodupB xs = true
  | .nil, _ => rfl
  | .cons t ts, h => by
    simp only [TEList.nodupB, TEList.mapF, Bool.and_eq_true, Bool.not_eq_true'] at h ⊢
    refine ⟨?_, nodupB_of_mapF f ts h.2⟩
    by_contra hc
    simp only [Bool.not_eq_false] at hc
    have hm := memB_mapF f t ts hc
    rw [h.1] at hm
    exact absurd hm (by simp)

theorem allF_imp (p q : TypeExpr → Bool) (hpq : ∀ t, p t = true → q t = true) :
    ∀ xs : TEList, TEList.allF p xs = true → TEList.allF q xs = true
  | .nil, _ => rfl
  | .cons t ts, h => by
    simp only [TEList.allF, Bool.and_eq_true] at h ⊢
    exact ⟨hpq t h.1, allF_imp p q hpq ts h.2⟩

theorem allF_mapF (p : TypeExpr → Bool) (f : TypeExpr → TypeExpr) : ∀ xs : TEList,
    TEList.allF p (TEList.mapF f xs) = TEList.allF (fun t => p (f t)) xs
  | .nil => rfl
  | .cons t ts => by rw [TEList.mapF, TEList.allF, TEList.allF, allF_mapF p f ts]

theorem resolve_nonUnion (t : TypeExpr) (w : Which) (h : t.isUnion = false) :
    (resolveAnn t w).isUnion = false := by
  cases t with
  | unionT ms => simp [TypeExpr.isUnion] at h
  | typingAlias o args =>
    rw [resolveAnn]
    by_cases ho : o = "list" <;> simp [ho, TypeExpr.isUnion]
  | _ => simp [resolveAnn, TypeExpr.isUnion]

theorem retarget_nonUnion (t : TypeExpr) (h : t.isUnion = false) :
    (retarget t).isUnion = false := by
  cases t with
  | unionT ms => simp [TypeExpr.isUnion] at h
  | variantRef m w => cases w <;> simp [retarget, TypeExpr.isUnion]
  | _ => simp [retarget, TypeExpr.isUnion]

theorem flatten_of_nonUnion : ∀ ms : TEList,
    TEList.allF (fun m => !m.isUnion) ms = true → flattenUnion ms = ms
  | .nil, _ => rfl
  | .cons t ts, h => by
    simp only [TEList.allF, Bool.and_eq_true, Bool.not_eq_true'] at h
    cases t with
    | unionT l => simp [TypeExpr.isUnion] at h
    | _ =>
      rw [flattenUnion, flatten_of_nonUnion ts h.2]
      all_goals exact fun ms hms => TypeExpr.noConfusion hms

theorem allF_notMem_cons (t : TypeExpr) (seen : TEList) : ∀ ts : TEList,
    TEList.memB t ts = false →
    TEList.allF (fun x => !TEList.memB x seen) ts = true →
    TEList.allF (fun x => !TEList.memB x (.cons t seen)) ts = true
  | .nil, _, _ => rfl
  | .cons x ts, hnm, h => by
    simp only [TEList.memB, Bool.or_eq_false_iff, decide_eq_false_iff_not] at hnm
    simp only [TEList.allF, Bool.and_eq_true, Bool.not_eq_true'] at h ⊢
    constructor
    · simp only [TEList.memB, Bool.or_eq_false_iff, decide_eq_false_iff_not]
      exact ⟨fun he => hnm.1 he.symm, h.1⟩
    · exact allF_notMem_cons t seen ts hnm.2 h.2

theorem allF_notMem_nil : ∀ ts : TEList, TEList.allF (fun x => !TEList.memB x .nil) ts = true
  | .nil => rfl
  | .cons x ts => by
    simp only [TEList.allF, allF_notMem_nil ts, Bool.and_true]
    rfl

theorem dedupAcc_eq_self : ∀ (ms seen : TEList),
    TEList.nodupB ms = true →
    TEList.allF (fun x => !TEList.memB x seen) ms = true → dedupAcc seen ms = ms
  | .nil, _, _, _ => rfl
  | .cons t ts, seen, hn, hs => by
    simp only [TEList.nodupB, Bool.and_eq_true, Bool.not_eq_true'] at hn
    simp only [TEList.allF, Bool.and_eq_true, Bool.not_eq_true'] at hs
    rw [dedupAcc, hs.1]
    simp only [Bool.false_eq_true, if_false]
    rw [dedupAcc_eq_self ts (.cons t seen) hn.2 (allF_notMem_cons t seen ts hn.1 hs.2)]

theorem mkUnion_eq_unionT (ms : TEList)
    (hU : TEList.allF (fun m => !m.isUnion) ms = true)
    (hn : TEList.nodupB ms = true)
    (hl : 2 ≤ TEList.len ms) : mkUnion ms = .unionT ms := by
  rw [mkUnion, flatten_of_nonUnion ms hU, dedupAcc_eq_self ms .nil hn (allF_notMem_nil ms)]
  match ms, hl with
  | .cons a (.cons b l), _ => rfl

mutual
theorem unresolveW_id (w : Which) : ∀ t : TypeExpr, annWF t = true → unresolveW w t = t
  | .prim _, _ => rfl
  | .dualRef _, _ => rfl
  | .variantRef _ _, h => by simp [annWF] at h
  | .plainModel _, _ => rfl
  | .genericAlias o args, h => by
    rw [unresolveW, unresolveWList_id w args (by simpa [annWF] using h)]
  | .typingAlias o args, h => by
    rw [unresolveW, unresolveWList_id w args (by simpa [annWF] using h)]
  | .unionT ms, h => by
    simp only [annWF, Bool.and_eq_true, decide_eq_true_eq] at h
    rw [unresolveW, unresolveWList_id w ms h.1.1.1]
  | .annotatedT args, h => by
    simp only [annWF, Bool.and_eq_true, decide_eq_true_eq] at h
    rw [unresolveW, unresolveWList_id w args h.1]
  | .litT _, _ => rfl
  | .strRef _, _ => rfl
  | .metaObj _, _ => rfl

theorem unresolveWList_id (w : Which) : ∀ ts : TEList, annWFList ts = true →
    unresolveWList w ts = ts
  | .nil, _ => rfl
  | .cons t ts, h => by
    simp only [annWFList, Bool.and_eq_true] at h
    rw [unresolveWList, unresolveW_id w t h.1, unresolveWList_id w ts h.2]
end

mutual
theorem retarget_id : ∀ t : TypeExpr, annWF t = true → retarget t = t
  | .prim _, _ => rfl
  | .dualRef _, _ => rfl
  | .variantRef _ _, h => by simp [annWF] at h
  | .plainModel _, _ => rfl
  | .genericAlias o args, h => by
    rw [retarget, retargetList_id args (by simpa [annWF] using h)]
  | .typingAlias o args, h => by
    rw [retarget, retargetList_id args (by simpa [annWF] using h)]
  | .unionT ms, h => by
    simp only [annWF, Bool.and_eq_true, decide_eq_true_eq] at h
    rw [retarget, retargetList_id ms h.1.1.1]
  | .annotatedT args, h => by
    simp only [annWF, Bool.and_eq_true, decide_eq_true_eq] at h
    rw [retarget, retargetList_id args h.1]
  | .litT _, _ => rfl
  | .strRef _, _ => rfl
  | .metaObj _, _ => rfl

theorem retargetList_id : ∀ ts : TEList, annWFList ts = true → retargetList ts = ts
  | .nil, _ => rfl
  | .cons t ts, h => by
    simp only [annWFList, Bool.and_eq_true] at h
    rw [retargetList, retarget_id t h.1, retargetList_id ts h.2]
end

mutual
theorem unresolve_resolve (w : Which) : ∀ t : TypeExpr, annWF t = true →
    unresolveW w (resolveAnn t w) = t
  | .prim _, _ => rfl
  | .dualRef m, _ => by
    rw [resolveAnn, unresolveW]
    simp
  | .variantRef _ _, h => by simp [annWF] at h
  | .plainModel _, _ => rfl
  | .genericAlias o args, h => by
    rw [resolveAnn, unresolveW, unresolveList_resolve w args (by simpa [annWF] using h)]
  | .typingAlias o args, h => by
    by_cases ho : o = "list"
    · subst ho
      rw [resolveAnn, if_pos rfl, unresolveW,
        unresolveList_resolve w args (by simpa [annWF] using h)]
    · rw [resolveAnn, if_neg ho, unresolveW,
        unresolveWList_id w args (by simpa [annWF] using h)]
  | .unionT ms, h => by
    simp only [annWF, Bool.and_eq_true, decide_eq_true_eq] at h
    obtain ⟨⟨⟨hwf, hU⟩, hnd⟩, hlen⟩ := h
    have hUX : TEList.allF (fun m => !m.isUnion) (resolveList ms w) = true := by
      rw [resolveList_eq_mapF, allF_mapF]
      refine allF_imp _ _ (fun t ht => ?_) ms hU
      simp only [Bool.not_eq_true'] at ht ⊢
      exact resolve_nonUnion t w ht
    have hIH : unresolveWList w (resolveList ms w) = ms := unresolveList_resolve w ms hwf
    have hndX : TEList.nodupB (resolveList ms w) = true := by
      apply nodupB_of_mapF (unresolveW w)
      rw [← unresolveWList_eq_mapF, hIH]
      exact hnd
    have hlenX : 2 ≤ TEList.len (resolveList ms w) := by
      rw [resolveList_eq_mapF, len_mapF]
      exact hlen
    rw [resolveAnn, mkUnion_eq_unionT _ hUX hndX hlenX, unresolveW, hIH]
  | .annotatedT args, h => by
    simp only [annWF, Bool.and_eq_true, decide_eq_true_eq] at h
    rw [resolveAnn, unresolveW, unresolveList_resolve w args h.1]
  | .litT _, _ => rfl
  | .strRef _, _ => rfl
  | .metaObj _, _ => rfl

theorem unresolveList_resolve (w : Which) : ∀ ts : TEList, annWFList ts = true →
    unresolveWList w (resolveList ts w) = ts
  | .nil, _ => rfl
  | .cons t ts, h => by
    simp only [annWFList, Bool.and_eq_true] at h
    rw [resolveList, unresolveWList, unresolve_resolve w t h.1, unresolveList_resolve w ts h.2]
end

theorem resolve_union_wf (ms : TEList) (w : Which) (h : annWF (.unionT ms) = true) :
    resolveAnn (.unionT ms) w = .unionT (resolveList ms w) := by
  simp only [annWF, Bool.and_eq_true, decide_eq_true_eq] at h
  obtain ⟨⟨⟨hwf, hU⟩, hnd⟩, hlen⟩ := h
  have hUX : TEList.allF (fun m => !m.isUnion) (resolveList ms w) = true := by
    rw [resolveList_eq_mapF, allF_mapF]
    refine allF_imp _ _ (fun t ht => ?_) ms hU
    simp only [Bool.not_eq_true'] at ht ⊢
    exact resolve_nonUnion t w ht
  have hndX : TEList.nodupB (resolveList ms w) = true := by
    apply nodupB_of_mapF (unresolveW w)
    rw [← unresolveWList_eq_mapF, unresolveList_resolve w ms hwf]
    exact hnd
  have hlenX : 2 ≤ TEList.len (resolveList ms w) := by
    rw [resolveList_eq_mapF, len_mapF]
    exact hlen
  rw [resolveAnn, mkUnion_eq_unionT _ hUX hndX hlenX]

mutual
theorem resolve_patch_retarget : ∀ t : TypeExpr, annWF t = true →
    resolveAnn t .patch = retarget (resolveAnn t .request)
  | .prim _, _ => rfl
  | .dualRef _, _ => rfl
  | .variantRef _ _, h => by simp [annWF] at h
  | .plainModel _, _ => rfl
  | .genericAlias o args, h => by
    rw [resolveAnn, resolveAnn, retarget,
      resolveList_patch_retarget args (by simpa [annWF] using h)]
  | .typingAlias o args, h => by
    by_cases ho : o = "list"
    · subst ho
      rw [resolveAnn, resolveAnn, if_pos rfl, if_pos rfl, retarget,
        resolveList_patch_retarget args (by simpa [annWF] using h)]
    · rw [resolveAnn, resolveAnn, if_neg ho, if_neg ho, retarget,
        retargetList_id args (by simpa [annWF] using h)]
  | .unionT ms, h => by
    have h' := h
    simp only [annWF, Bool.and_eq_true, decide_eq_true_eq] at h'
    rw [resolve_union_wf ms .patch h, resolve_union_wf ms .request h, retarget,
      resolveList_patch_retarget ms h'.1.1.1]
  | .annotatedT args, h => by
    simp only [annWF, Bool.and_eq_true, decide_eq_true_eq] at h
    rw [resolveAnn, resolveAnn, retarget, resolveList_patch_retarget args h.1]
  | .litT _, _ => rfl
  | .strRef _, _ => rfl
  | .metaObj _, _ => rfl

theorem resolveList_patch_retarget : ∀ ts : TEList, annWFList ts = true →
    resolveList ts .patch = retargetList (resolveList ts .request)
  | .nil, _ => rfl
  | .cons t ts, h => by
    simp only [annWFList, Bool.and_eq_true] at h
    rw [resolveList, resolveList, retargetList, resolve_patch_retarget t h.1,
      resolveList_patch_retarget ts h.2]
end

/-! ### The per-field Patch/Request correspondence -/

theorem retargetList_headD (args : TEList) :
    (retargetList args).headD = retarget args.headD := by
  cases args with
  | nil => rfl
  | cons t ts => rfl

theorem retargetList_tailL (args : TEList) :
    (retargetList args).tailL = retargetList args.tailL := by
  cases args with
  | nil => rfl
  | cons t ts => rfl

theorem patchField_eq (f : FieldDecl) (h : annWF f.ann = true) :
    patchField f = patchFromRequestField (plainXform .request f) := by
  unfold patchField plainXform patchFromRequestField
  rw [resolve_patch_retarget f.ann h]
  generalize resolveAnn f.ann .request = r
  cases r with
  | annotatedT args =>
    cases args with
    | nil => rfl
    | cons t ts => rfl
  | variantRef m w => cases w <;> rfl
  | _ => rfl

theorem plainXform_name (w : Which) (f : FieldDecl) : (plainXform w f).name = f.name := rfl

theorem patchField_name (f : FieldDecl) : (patchField f).name = f.name := by
  unfold patchField
  cases hr : resolveAnn f.ann .patch with
  | litT vals =>
    by_cases hl : vals.length = 1
    · simp [hl]
    · simp [hl]
  | _ => rfl

theorem fieldXform_name (w : Which) (f : FieldDecl) : (fieldXform w f).name = f.name := by
  cases w with
  | patch => exact patchField_name f
  | request => rfl
  | response => rfl

/-! ### Transport of `dict.update` merging along the per-variant transform -/

theorem find?_map_name (g : FieldDecl → FieldSpec) (hg : ∀ f, (g f).name = f.name)
    (l : List FieldDecl) (n : String) :
    (l.map g).find? (fun x => x.name = n) = (l.find? (fun f => f.name = n)).map g := by
  induction l with
  | nil => rfl
  | cons f l ih =>
    simp only [List.map_cons, List.find?]
    rw [hg f]
    by_cases hf : f.name = n
    · simp [hf]
    · simp [hf, ih]

theorem filter_map_comm (g : FieldDecl → FieldSpec) (p : FieldSpec → Bool)
    (l : List FieldDecl) :
    (l.map g).filter p = (l.filter (fun x => p (g x))).map g := by
  induction l with
  | nil => rfl
  | cons f l ih =>
    simp only [List.map_cons, List.filter]
    by_cases hf : p (g f)
    · simp [hf, ih]
    · simp [hf, ih]

theorem all_map_comm (g : FieldDecl → FieldSpec) (p : FieldSpec → Bool)
    (l : List FieldDecl) :
    (l.map g).all p = l.all (fun x => p (g x)) := by
  induction l with
  | nil => rfl
  | cons f l ih => simp [List.all_cons, ih]

theorem updFS_map (g : FieldDecl → FieldSpec) (hg : ∀ f, (g f).name = f.name)
    (A B : List FieldDecl) :
    updFS (A.map g) (B.map g) = (updFD A B).map g := by
  unfold updFS updFD
  rw [List.map_append]
  congr 1
  · rw [List.map_map, List.map_map]
    refine List.map_congr_left (fun f _ => ?_)
    simp only [Function.comp_apply]
    rw [hg f, find?_map_name g hg]
    cases B.find? (fun x => x.name = f.name) with
    | none => rfl
    | some b => rfl
  · rw [filter_map_comm]
    congr 1
    refine List.filter_congr (fun b _ => ?_)
    rw [all_map_comm]
    exact congrArg (List.all A) (funext (fun f => by rw [hg f, hg b]))

theorem mem_updFD (A B : List FieldDecl) (f : FieldDecl) (h : f ∈ updFD A B) :
    f ∈ A ∨ f ∈ B := by
  unfold updFD at h
  rw [List.mem_append] at h
  rcases h with h | h
  · rw [List.mem_map] at h
    obtain ⟨a, ha, hEq⟩ := h
    cases hf : B.find? (fun g => g.name = a.name) with
    | none =>
      rw [hf] at hEq
      exact Or.inl (hEq ▸ ha)
    | some b =>
      rw [hf] at hEq
      simp only [Option.getD_some] at hEq
      exact Or.inr (hEq ▸ List.mem_of_find?_eq_some hf)
  · exact Or.inr (List.mem_of_mem_filter h)

theorem mem_foldl_updFD (fd : Nat → List FieldDecl) :
    ∀ (l : List Nat) (acc : List FieldDecl) (f : FieldDecl),
      f ∈ l.foldl (fun a b => updFD a (fd b)) acc → f ∈ acc ∨ ∃ b ∈ l, f ∈ fd b
  | [], _, _, h => Or.inl h
  | b :: l, acc, f, h => by
    rw [List.foldl_cons] at h
    rcases mem_foldl_updFD fd l (updFD acc (fd b)) f h with h' | h'
    · rcases mem_updFD acc (fd b) f h' with h'' | h''
      · exact Or.inl h''
      · exact Or.inr ⟨b, by simp, h''⟩
    · obtain ⟨b', hb', hf'⟩ := h'
      exact Or.inr ⟨b', by simp [hb'], hf'⟩

theorem foldl_updFS_map (g : FieldDecl → FieldSpec) (hg : ∀ f, (g f).name = f.name)
    (fs : Nat → List FieldSpec) (fd : Nat → List FieldDecl)
    (hb : ∀ b, fs b = (fd b).map g) :
    ∀ (l : List Nat) (accD : List FieldDecl),
      l.foldl (fun a b => updFS a (fs b)) (accD.map g) =
        (l.foldl (fun a b => updFD a (fd b)) accD).map g
  | [], _ => rfl
  | b :: l, accD => by
    rw [List.foldl_cons, List.foldl_cons, hb b, updFS_map g hg accD (fd b)]
    exact foldl_updFS_map g hg fs fd hb l (updFD accD (fd b))

theorem inheritedFS_map (prev : List Built) (w : Which)
    (hInv : builtInv prev) (bases : List Nat) :
    inheritedFS prev w bases = (inheritedFD prev bases).map (fieldXform w) := by
  unfold inheritedFS inheritedFD
  have hb : ∀ b, ((prev.get? b).getD rootBuilt).fieldsOf w =
      (((prev.get? b).getD rootBuilt).merged).map (fieldXform w) := by
    intro b
    cases hgb : prev.get? b with
    | none => cases w <;> rfl
    | some B =>
      obtain ⟨h1, h2, h3, _⟩ := hInv B (List.get?_mem hgb)
      cases w
      · exact h1
      · exact h2
      · exact h3
  exact foldl_updFS_map (fieldXform w) (fieldXform_name w) _ _ hb bases.reverse []

theorem buildOne_inv (prev : List Built) (d : ModelDecl) (hInv : builtInv prev)
    (hd : declWF d = true) : builtInv (prev ++ [buildOne prev d]) := by
  intro B hB
  rw [List.mem_append, List.mem_singleton] at hB
  rcases hB with hB | hB
  · exact hInv B hB
  · subst hB
    refine ⟨?_, ?_, ?_, ?_⟩
    · show updFS (inheritedFS prev .request d.bases) (d.fields.map (fieldXform .request)) = _
      rw [inheritedFS_map prev .request hInv d.bases]
      exact updFS_map (fieldXform .request) (fieldXform_name .request) _ _
    · show updFS (inheritedFS prev .response d.bases) (d.fields.map (fieldXform .response)) = _
      rw [inheritedFS_map prev .response hInv d.bases]
      exact updFS_map (fieldXform .response) (fieldXform_name .response) _ _
    · show updFS (inheritedFS prev .patch d.bases) (d.fields.map (fieldXform .patch)) = _
      rw [inheritedFS_map prev .patch hInv d.bases]
      exact updFS_map (fieldXform .patch) (fieldXform_name .patch) _ _
    · intro f hf
      rcases mem_updFD _ _ f hf with hf' | hf'
      · unfold inheritedFD at hf'
        rcases mem_foldl_updFD _ _ _ _ hf' with hf'' | hf''
        · exact absurd hf'' (List.not_mem_nil f)
        · obtain ⟨b, _, hfb⟩ := hf''
          cases hgb : prev.get? b with
          | none =>
            rw [hgb] at hfb
            exact absurd hfb (List.not_mem_nil f)
          | some B' =>
            rw [hgb] at hfb
            exact (hInv B' (List.get?_mem hgb)).2.2.2 f hfb
      · unfold declWF at hd
        rw [Bool.and_eq_true] at hd
        exact (List.all_eq_true.mp hd.2) f hf'

theorem buildAllAux_inv : ∀ (l : Env) (acc : List Built), builtInv acc →
    (∀ d ∈ l, declWF d = true) → builtInv (buildAllAux acc l)
  | [], _, hInv, _ => hInv
  | d :: rest, acc, hInv, hl => by
    rw [buildAllAux]
    exact buildAllAux_inv rest _ (buildOne_inv acc d hInv (hl d (by simp)))
      (fun d' hd' => hl d' (by simp [hd']))

theorem buildAll_inv (env : Env) (h : env.all declWF = true) : builtInv (buildAll env) := by
  refine buildAllAux_inv env [] (fun B hB => absurd hB (List.not_mem_nil B)) ?_
  exact fun d hd => (List.all_eq_true.mp h) d hd

theorem buildAllAux_append : ∀ (l1 : Env) (acc : List Built) (l2 : Env),
    buildAllAux acc (l1 ++ l2) = buildAllAux (buildAllAux acc l1) l2
  | [], _, _ => rfl
  | d :: l1, acc, l2 => by
    rw [List.cons_append, buildAllAux, buildAllAux, buildAllAux_append l1 _ l2]

theorem buildAllAux_length : ∀ (l : Env) (acc : List Built),
    (buildAllAux acc l).length = acc.length + l.length
  | [], acc => by simp [buildAllAux]
  | d :: l, acc => by
    rw [buildAllAux, buildAllAux_length l]
    simp only [List.length_append, List.length_cons, List.length_nil]
    omega

theorem buildAllAux_get_lt : ∀ (l : Env) (acc : List Built) (i : Nat), i < acc.length →
    (buildAllAux acc l).get? i = acc.get? i
  | [], _, _, _ => rfl
  | d :: l, acc, i, hi => by
    rw [buildAllAux, buildAllAux_get_lt l _ i (by simp only [List.length_append]; omega)]
    exact List.get?_append hi

theorem buildAllAux_get : ∀ (l : Env) (acc : List Built) (i : Nat) (d : ModelDecl),
    l.get? i = some d →
    (buildAllAux acc l).get? (acc.length + i) =
      some (buildOne (buildAllAux acc (l.take i)) d)
  | [], _, i, _, h => by simp at h
  | e :: l, acc, 0, d, h => by
    obtain rfl : e = d := by simpa using h
    show (buildAllAux (acc ++ [buildOne acc e]) l).get? (acc.length + 0) = _
    rw [buildAllAux_get_lt l _ _ (by simp)]
    simpa [buildAllAux] using List.get?_concat_length acc (buildOne acc e)
  | e :: l, acc, i + 1, d, h => by
    rw [List.take_succ_cons, buildAllAux, buildAllAux]
    have hrec := buildAllAux_get l (acc ++ [buildOne acc e]) i d (by simpa using h)
    simp only [List.length_append, List.length_singleton] at hrec
    have harith : acc.length + 1 + i = acc.length + (i + 1) := by omega
    rw [harith] at hrec
    exact hrec

theorem buildAll_get (env : Env) (i : Nat) (d : ModelDecl) (hd : env.get? i = some d) :
    (buildAll env).get? i = some (buildOne (buildAll (env.take i)) d) := by
  simpa using buildAllAux_get env [] i d hd

theorem buildAll_get_take (env : Env) (j b : Nat) (hb : b < j) (hj : j ≤ env.length) :
    (buildAll (env.take j)).get? b = (buildAll env).get? b := by
  conv_rhs => rw [← List.take_append_drop j env]
  rw [buildAll, buildAll, buildAllAux_append]
  have hcond : b < (buildAllAux [] (env.take j)).length := by
    rw [buildAllAux_length]
    simp only [List.length_nil, List.length_take]
    omega
  rw [buildAllAux_get_lt (env.drop j) (buildAllAux [] (env.take j)) b hcond]

/-! ### The PatchRequest field set as a function of the Request field set -/

theorem patch_eq_request_map (env : Env) (h : env.all declWF = true) (i : Nat) :
    variantFieldsOf env i .patch = (variantFieldsOf env i .request).map patchFromRequestField := by
  unfold variantFieldsOf
  cases hg : (buildAll env).get? i with
  | none => rfl
  | some B =>
    obtain ⟨h1, _, h3, hwf⟩ := buildAll_inv env h B (List.get?_mem hg)
    simp only [Option.getD_some]
    show B.patchFields = B.reqFields.map patchFromRequestField
    rw [h1, h3, List.map_map]
    refine List.map_congr_left (fun f hf => ?_)
    simp only [Function.comp_apply]
    exact patchField_eq f (hwf f hf)

theorem find?_map_nameG {α β : Type} (g : α → β) (nA : α → String) (nB : β → String)
    (hg : ∀ a, nB (g a) = nA a) (l : List α) (k : String) :
    (l.map g).find? (fun x => nB x = k) = (l.find? (fun a => nA a = k)).map g := by
  induction l with
  | nil => rfl
  | cons f l ih =>
    simp only [List.map_cons, List.find?]
    rw [hg f]
    by_cases hf : nA f = k
    · simp [hf]
    · simp [hf, ih]

theorem patchFromRequestField_name (s : FieldSpec) :
    (patchFromRequestField s).name = s.name := by
  unfold patchFromRequestField
  cases s.ann with
  | litT vals =>
    by_cases hl : vals.length = 1
    · simp [hl]
    · simp [hl]
  | _ => rfl

/-! ### Effective `extra` configuration -/

theorem variantExtra_of_decl (env : Env) (i : Nat) (d : ModelDecl) (hd : env.get? i = some d)
    (w : Which) :
    variantExtraOf env i w = effectiveExtra (buildAll (env.take i)) w d := by
  unfold variantExtraOf
  rw [buildAll_get env i d hd]
  cases w <;> rfl

theorem extra_default (env : Env) (hno : noExtraOverrides env = true) (w : Which) :
    ∀ i, variantExtraOf env i w = rootExtra w := by
  intro i
  induction i using Nat.strong_induction_on with
  | _ i ih =>
    cases hd : env.get? i with
    | none =>
      unfold variantExtraOf
      have hnone : (buildAll env).get? i = none := by
        rw [List.get?_eq_none, buildAll, buildAllAux_length]
        simpa [List.get?_eq_none] using hd
      rw [hnone]
      cases w <;> rfl
    | some d =>
      have hi : i < env.length := by
        by_contra hc
        rw [List.get?_eq_none.mpr (by omega)] at hd
        exact Option.noConfusion hd
      rw [variantExtra_of_decl env i d hd w]
      unfold effectiveExtra
      have hcfg : d.configExtra = none ∧ d.kwargsExtra = none := by
        have := (List.all_eq_true.mp hno) d (List.get?_mem hd)
        rw [Bool.and_eq_true, Option.isNone_iff_eq_none, Option.isNone_iff_eq_none] at this
        exact this
      rw [hcfg.1, hcfg.2]
      simp only [Option.getD_none]
      unfold inheritedExtra
      cases hL : d.bases.getLast? with
      | none => rfl
      | some b =>
        show (((buildAll (env.take i)).get? b).getD rootBuilt).extraOf w = rootExtra w
        by_cases hb : b < i
        · rw [buildAll_get_take env i b hb (by omega)]
          have hih := ih b hb
          unfold variantExtraOf at hih
          exact hih
        · have hout : (buildAll (env.take i)).get? b = none := by
            rw [List.get?_eq_none, buildAll, buildAllAux_length]
            simp only [List.length_nil, List.length_take]
            omega
          rw [hout]
          cases w <;> rfl

/-! ### Parse behaviour: unrecognized keys, discarding, and success -/

theorem parseEntries_forbid_none (env : Env) (flds : List FieldSpec) (k : String) :
    ∀ inp : PyDict, PyDict.hasKey inp k = true →
      flds.find? (fun f => f.name = k) = none →
      parseEntries env flds .forbid inp = none
  | .nil, h, _ => by simp [PyDict.hasKey] at h
  | .cons k' v rest, h, hf => by
    simp only [PyDict.hasKey, Bool.or_eq_true, decide_eq_true_eq] at h
    by_cases hk : k' = k
    · subst hk
      simp only [parseEntries, hf, parseStep]
    · have hrest : PyDict.hasKey rest k = true := by
        rcases h with h | h
        · exact absurd h hk
        · exact h
      simp only [parseEntries, parseEntries_forbid_none env flds k rest hrest hf]
      cases hff : flds.find? (fun f => f.name = k') with
      | none => simp only [parseStep]
      | some f =>
        simp only [parseStep]
        by_cases hc : checkVal env f.ann v = true
        · rw [if_pos hc]
          rfl
        · rw [if_neg hc]

theorem parseMap_forbid_none (env : Env) (flds : List FieldSpec) (k : String)
    (inp : PyDict) (h : PyDict.hasKey inp k = true)
    (hf : flds.find? (fun f => f.name = k) = none) :
    parseMap env flds .forbid inp = none := by
  simp only [parseMap]
  by_cases hr : requiredOk flds inp = true
  · rw [if_pos hr, parseEntries_forbid_none env flds k inp h hf]
    rfl
  · rw [if_neg hr]

theorem hasKey_filterKeys (p : String → Bool) :
    ∀ (inp : PyDict) (k : String), p k = true →
      (inp.filterKeys p).hasKey k = inp.hasKey k
  | .nil, _, _ => rfl
  | .cons k' v rest, k, hp => by
    simp only [PyDict.filterKeys]
    by_cases hpk : p k' = true
    · rw [if_pos hpk]
      simp only [PyDict.hasKey]
      rw [hasKey_filterKeys p rest k hp]
    · rw [if_neg hpk]
      simp only [PyDict.hasKey]
      have hk : (decide (k' = k)) = false := by
        rw [decide_eq_false_iff_not]
        intro hc
        rw [hc, hp] at hpk
        exact hpk rfl
      rw [hk]
      simp only [Bool.false_or]
      exact hasKey_filterKeys p rest k hp

theorem find?_isSome_of_mem (flds : List FieldSpec) (f : FieldSpec) (hf : f ∈ flds) :
    (flds.find? (fun g => g.name = f.name)).isSome = true := by
  rw [List.find?_isSome]
  exact ⟨f, hf, by simp⟩

theorem all_hasKey_filter_aux (flds : List FieldSpec) (inp : PyDict) :
    ∀ gs : List FieldSpec, (∀ f ∈ gs, f ∈ flds) →
      gs.all (fun f => !requiredB f.default ||
          (inp.filterKeys (fun k => (flds.find? (fun g => g.name = k)).isSome)).hasKey f.name) =
        gs.all (fun f => !requiredB f.default || inp.hasKey f.name)
  | [], _ => rfl
  | f :: gs, h => by
    rw [List.all_cons, List.all_cons,
      hasKey_filterKeys _ inp f.name (find?_isSome_of_mem flds f (h f (by simp))),
      all_hasKey_filter_aux flds inp gs (fun g hg => h g (by simp [hg]))]

theorem requiredOk_filterKeys (flds : List FieldSpec) (inp : PyDict) :
    requiredOk flds (inp.filterKeys (fun k => (flds.find? (fun f => f.name = k)).isSome)) =
      requiredOk flds inp := by
  unfold requiredOk
  exact all_hasKey_filter_aux flds inp flds (fun _ hf => hf)

theorem defaultsFill_filter_aux (flds : List FieldSpec) (inp : PyDict) :
    ∀ gs : List FieldSpec, (∀ f ∈ gs, f ∈ flds) →
      defaultsFill gs (inp.filterKeys (fun k => (flds.find? (fun g => g.name = k)).isSome)) =
        defaultsFill gs inp
  | [], _ => rfl
  | f :: gs, h => by
    simp only [defaultsFill]
    rw [hasKey_filterKeys _ inp f.name (find?_isSome_of_mem flds f (h f (by simp))),
      defaultsFill_filter_aux flds inp gs (fun g hg => h g (by simp [hg]))]

theorem parseEntries_ignore_filter (env : Env) (flds : List FieldSpec) :
    ∀ inp : PyDict,
      parseEntries env flds .ignore
          (inp.filterKeys (fun k => (flds.find? (fun f => f.name = k)).isSome)) =
        parseEntries env flds .ignore inp
  | .nil => rfl
  | .cons k v rest => by
    cases hff : flds.find? (fun f => f.name = k) with
    | none =>
      simp only [PyDict.filterKeys, hff, Option.isSome_none, Bool.false_eq_true, if_false]
      rw [parseEntries_ignore_filter env flds rest]
      simp only [parseEntries, hff, parseStep]
    | some f =>
      simp only [PyDict.filterKeys, hff, Option.isSome_some, if_true]
      simp only [parseEntries, hff, parseStep]
      rw [parseEntries_ignore_filter env flds rest]

theorem parseMap_ignore_filter (env : Env) (flds : List FieldSpec) (inp : PyDict) :
    parseMap env flds .ignore inp =
      parseMap env flds .ignore
        (inp.filterKeys (fun k => (flds.find? (fun f => f.name = k)).isSome)) := by
  simp only [parseMap]
  rw [requiredOk_filterKeys, parseEntries_ignore_filter,
    defaultsFill_filter_aux flds inp flds (fun _ hf => hf)]

theorem parseEntries_isSome_of_checked (env : Env) (flds : List FieldSpec) (extra : Extra) :
    ∀ inp : PyDict, allKeysDeclared flds inp = true → entriesCheckB env flds inp = true →
      (parseEntries env flds extra inp).isSome = true
  | .nil, _, _ => by simp [parseEntries]
  | .cons k v rest, hd, hc => by
    simp only [allKeysDeclared, Bool.and_eq_true] at hd
    simp only [entriesCheckB, Bool.and_eq_true] at hc
    cases hff : flds.find? (fun f => f.name = k) with
    | none =>
      rw [hff] at hd
      exact absurd hd.1 (by simp)
    | some f =>
      simp only [hff] at hc
      simp only [parseEntries, hff, parseStep]
      rw [if_pos hc.1]
      have hrec := parseEntries_isSome_of_checked env flds extra rest hd.2 hc.2
      cases hpe : parseEntries env flds extra rest with
      | none => rw [hpe] at hrec; exact absurd hrec (by simp)
      | some out => rfl

theorem parseMap_isSome_of_wellShaped (env : Env) (flds : List FieldSpec) (extra : Extra)
    (inp : PyDict) (h : wellShaped env flds inp = true) :
    (parseMap env flds extra inp).isSome = true := by
  unfold wellShaped at h
  rw [Bool.and_eq_true, Bool.and_eq_true] at h
  simp only [parseMap]
  rw [if_pos h.1.2]
  have := parseEntries_isSome_of_checked env flds extra inp h.1.1 h.2
  cases hpe : parseEntries env flds extra inp with
  | none => rw [hpe] at this; exact absurd this (by simp)
  | some out => simp

/-! ### MRO structure of generated classes -/

theorem ancAllAux_append : ∀ (l1 : Env) (acc : List AncSet) (l2 : Env),
    ancAllAux acc (l1 ++ l2) = ancAllAux (ancAllAux acc l1) l2
  | [], _, _ => rfl
  | d :: l1, acc, l2 => by
    rw [List.cons_append, ancAllAux, ancAllAux, ancAllAux_append l1 _ l2]

theorem ancAllAux_length : ∀ (l : Env) (acc : List AncSet),
    (ancAllAux acc l).length = acc.length + l.length
  | [], acc => by simp [ancAllAux]
  | d :: l, acc => by
    rw [ancAllAux, ancAllAux_length l]
    simp only [List.length_append, List.length_cons, List.length_nil]
    omega

theorem ancAllAux_get_lt : ∀ (l : Env) (acc : List AncSet) (i : Nat), i < acc.length →
    (ancAllAux acc l).get? i = acc.get? i
  | [], _, _, _ => rfl
  | d :: l, acc, i, hi => by
    rw [ancAllAux, ancAllAux_get_lt l _ i (by simp only [List.length_append]; omega)]
    exact List.get?_append hi

theorem ancAllAux_get : ∀ (l : Env) (acc : List AncSet) (i : Nat) (d : ModelDecl),
    l.get? i = some d →
    (ancAllAux acc l).get? (acc.length + i) =
      some (ancOne (ancAllAux acc (l.take i)) (acc.length + i) d)
  | [], _, i, _, h => by simp at h
  | e :: l, acc, 0, d, h => by
    obtain rfl : e = d := by simpa using h
    show (ancAllAux (acc ++ [ancOne acc acc.length e]) l).get? (acc.length + 0) = _
    rw [ancAllAux_get_lt l _ _ (by simp)]
    simpa [ancAllAux] using List.get?_concat_length acc (ancOne acc acc.length e)
  | e :: l, acc, i + 1, d, h => by
    rw [List.take_succ_cons, ancAllAux, ancAllAux]
    have hrec := ancAllAux_get l (acc ++ [ancOne acc acc.length e]) i d (by simpa using h)
    simp only [List.length_append, List.length_cons, List.length_nil] at hrec
    have harith : acc.length + 1 + i = acc.length + (i + 1) := by omega
    rw [harith] at hrec
    exact hrec

theorem ancAll_get (env : Env) (i : Nat) (d : ModelDecl) (hd : env.get? i = some d) :
    (ancAll env).get? i = some (ancOne (ancAll (env.take i)) i d) := by
  simpa using ancAllAux_get env [] i d hd

theorem ancAll_get_take (env : Env) (j b : Nat) (hb : b < j) (hj : j ≤ env.length) :
    (ancAll (env.take j)).get? b = (ancAll env).get? b := by
  conv_rhs => rw [← List.take_append_drop j env]
  rw [ancAll, ancAll, ancAllAux_append]
  have hcond : b < (ancAllAux [] (env.take j)).length := by
    rw [ancAllAux_length]
    simp only [List.length_nil, List.length_take]
    omega
  rw [ancAllAux_get_lt (env.drop j) (ancAllAux [] (env.take j)) b hcond]

theorem ancOne_ancOf_head (prev : List AncSet) (i : Nat) (d : ModelDecl) (w : Which) :
    ∃ rest, (ancOne prev i d).ancOf w = .variantCls i w :: rest := by
  cases w
  · exact ⟨_, rfl⟩
  · exact ⟨_, rfl⟩
  · exact ⟨_, rfl⟩

theorem variant_self_mem_anc (env : Env) (i : Nat) (d : ModelDecl)
    (hd : env.get? i = some d) (w : Which) :
    (.variantCls i w : PyClass) ∈ ancestorsOf env (.variantCls i w) := by
  show (.variantCls i w : PyClass) ∈ (((ancAll env).get? i).getD rootAnc).ancOf w
  rw [ancAll_get env i d hd]
  obtain ⟨rest, hrest⟩ := ancOne_ancOf_head (ancAll (env.take i)) i d w
  simp only [Option.getD_some, hrest]
  exact List.mem_cons_self _ _

theorem ancOne_canonOnly (prev : List AncSet) (i : Nat) (d : ModelDecl)
    (hprev : ∀ A ∈ prev, A.canonAnc.all canonOnlyCls = true) :
    (ancOne prev i d).canonAnc.all canonOnlyCls = true := by
  unfold ancOne
  simp only [List.all_cons, Bool.and_eq_true]
  refine ⟨rfl, ?_⟩
  rw [List.all_eq_true]
  intro c hc
  rw [List.mem_flatten] at hc
  obtain ⟨l, hl, hcl⟩ := hc
  rw [List.mem_map] at hl
  obtain ⟨A, hA, rfl⟩ := hl
  cases hbe : d.bases.isEmpty with
  | true =>
    simp only [hbe, if_true] at hA
    rw [List.mem_singleton] at hA
    subst hA
    simp only [rootAnc, List.mem_cons, List.mem_singleton] at hcl
    rcases hcl with h | h | h | h
    · rw [h]; rfl
    · rw [h]; rfl
    · rw [h]; rfl
    · exact absurd h (List.not_mem_nil c)
  | false =>
    simp only [hbe, Bool.false_eq_true, if_false] at hA
    rw [List.mem_map] at hA
    obtain ⟨b, _, rfl⟩ := hA
    cases hgb : prev.get? b with
    | none =>
      rw [hgb] at hcl
      simp only [Option.getD_none, rootAnc, List.mem_cons, List.mem_singleton] at hcl
      rcases hcl with h | h | h | h
      · rw [h]; rfl
      · rw [h]; rfl
      · rw [h]; rfl
      · exact absurd h (List.not_mem_nil c)
    | some A =>
      rw [hgb] at hcl
      simp only [Option.getD_some] at hcl
      exact (List.all_eq_true.mp (hprev A (List.get?_mem hgb))) c hcl

theorem ancAllAux_canonOnly : ∀ (l : Env) (acc : List AncSet),
    (∀ A ∈ acc, A.canonAnc.all canonOnlyCls = true) →
    ∀ A ∈ ancAllAux acc l, A.canonAnc.all canonOnlyCls = true
  | [], _, h => h
  | d :: l, acc, h => by
    rw [ancAllAux]
    refine ancAllAux_canonOnly l _ ?_
    intro A hA
    rw [List.mem_append, List.mem_singleton] at hA
    rcases hA with hA | hA
    · exact h A hA
    · subst hA
      exact ancOne_canonOnly acc acc.length d h

theorem canonical_anc_canonOnly (env : Env) (i : Nat) :
    (ancestorsOf env (.canonical i)).all canonOnlyCls = true := by
  show ((((ancAll env).get? i).getD rootAnc).canonAnc).all canonOnlyCls = true
  cases hg : (ancAll env).get? i with
  | none => rfl
  | some A =>
    simp only [Option.getD_some]
    exact ancAllAux_canonOnly env [] (fun A hA => absurd hA (List.not_mem_nil A)) A
      (List.get?_mem hg)

theorem canonical_not_sub_variant (env : Env) (i j : Nat) (w : Which) :
    plainSubB env (.canonical i) (.variantCls j w) = false := by
  unfold plainSubB
  rw [Bool.eq_false_iff]
  intro hc
  rw [List.any_eq_true] at hc
  obtain ⟨c, hcmem, hceq⟩ := hc
  rw [decide_eq_true_eq] at hceq
  subst hceq
  have := (List.all_eq_true.mp (canonical_anc_canonOnly env i)) _ hcmem
  exact absurd this (by simp [canonOnlyCls])

theorem child_variant_mem_anc (env : Env) (hb : basesWFB env = true) (j : Nat)
    (d : ModelDecl) (hd : env.get? j = some d) (i : Nat) (hij : i ∈ d.bases)
    (di : ModelDecl) (hdi : env.get? i = some di) (w : Which) :
    (.variantCls i w : PyClass) ∈ ancestorsOf env (.variantCls j w) := by
  have hjlen : j < env.length := by
    by_contra hc
    rw [List.get?_eq_none.mpr (by omega)] at hd
    exact Option.noConfusion hd
  have hilt : i < j := by
    have := (List.all_eq_true.mp hb) (j, d) (by
      rw [List.mem_iff_get?]
      exact ⟨j, by rw [List.get?_enum, hd]; rfl⟩)
    exact of_decide_eq_true ((List.all_eq_true.mp this) i hij)
  show (.variantCls i w : PyClass) ∈ (((ancAll env).get? j).getD rootAnc).ancOf w
  rw [ancAll_get env j d hd]
  simp only [Option.getD_some]
  have hne : d.bases.isEmpty = false := by
    cases hbd : d.bases with
    | nil => rw [hbd] at hij; exact absurd hij (List.not_mem_nil i)
    | cons x xs => rfl
  obtain ⟨rest, hrest⟩ := ancOne_ancOf_head (ancAll (env.take j)) j d w
  have : (ancOne (ancAll (env.take j)) j d).ancOf w =
      .variantCls j w :: ((if d.bases.isEmpty then [rootAnc]
        else d.bases.map (fun b => ((ancAll (env.take j)).get? b).getD rootAnc)).map
          (·.ancOf w)).flatten := by
    cases w <;> rfl
  rw [this, hne]
  rw [if_neg (by simp)]
  rw [List.mem_cons]
  refine Or.inr ?_
  rw [List.mem_flatten]
  refine ⟨(((ancAll (env.take j)).get? i).getD rootAnc).ancOf w, ?_, ?_⟩
  · rw [List.mem_map]
    exact ⟨((ancAll (env.take j)).get? i).getD rootAnc, List.mem_map_of_mem _ hij, rfl⟩
  · rw [ancAll_get_take env j i hilt (by omega), ancAll_get env i di hdi]
    obtain ⟨rest2, hrest2⟩ := ancOne_ancOf_head (ancAll (env.take i)) i di w
    simp only [Option.getD_some, hrest2]
    exact List.mem_cons_self _ _

/-! ### Lazy construction and caching -/

theorem getRespC_idem (s : LazyState) :
    getRespC (getRespC s).2 = ((getRespC s).1, (getRespC s).2) := by
  cases hr : s.respObj <;> simp [getRespC, hr]

theorem getPatchC_idem (s : LazyState) :
    getPatchC (getPatchC s).2 = ((getPatchC s).1, (getPatchC s).2) := by
  cases hr : s.patchObj <;> simp [getPatchC, hr]

theorem accessAttr_stable (p : Pos) (w : Which) (s : LazyState) (o : Pos × Nat) (s' : LazyState)
    (h : accessAttr p w s = some (o, s')) : accessAttr p w s' = some (o, s') := by
  cases p <;> cases w <;>
    simp only [accessAttr, Option.some.injEq] at h ⊢ <;>
    first
    | exact Option.noConfusion h
    | (obtain ⟨h1, h2⟩ := Prod.mk.injEq .. ▸ h
       subst h1
       subst h2
       exact rfl)
    | (obtain ⟨h1, h2⟩ := Prod.mk.injEq .. ▸ h
       subst h1
       subst h2
       rw [getRespC_idem])
    | (obtain ⟨h1, h2⟩ := Prod.mk.injEq .. ▸ h
       subst h1
       subst h2
       rw [getPatchC_idem])

theorem getRespC_good (s : LazyState) (hg : goodState s) : goodState (getRespC s).2 := by
  unfold goodState at hg ⊢
  cases hr : s.respObj with
  | some o => simpa [getRespC, hr] using hg
  | none =>
    simp only [getRespC, hr] at hg ⊢
    simp only [Option.isSome_some, Option.isSome_none] at hg ⊢
    simp at hg ⊢
    omega

theorem getPatchC_good (s : LazyState) (hg : goodState s) : goodState (getPatchC s).2 := by
  unfold goodState at hg ⊢
  cases hr : s.patchObj with
  | some o => simpa [getPatchC, hr] using hg
  | none =>
    simp only [getPatchC, hr] at hg ⊢
    simp only [Option.isSome_some, Option.isSome_none] at hg ⊢
    simp at hg ⊢
    omega

theorem accessAttr_good (p : Pos) (w : Which) (s : LazyState) (o : Pos × Nat) (s' : LazyState)
    (hg : goodState s) (h : accessAttr p w s = some (o, s')) : goodState s' := by
  cases p <;> cases w <;>
    simp only [accessAttr, Option.some.injEq] at h <;>
    first
    | exact Option.noConfusion h
    | (have h2 := congrArg Prod.snd h
       simp only at h2
       subst h2
       first
       | exact hg
       | exact getRespC_good s hg
       | exact getPatchC_good s hg)

theorem accessChainAux_good : ∀ (ws : List Which) (o : Pos × Nat) (s : LazyState),
    goodState s → ∀ (r : Pos × Nat) (s' : LazyState),
      accessChainAux ws o s = some (r, s') → goodState s'
  | [], _, s, hg, r, s', h => by
    simp only [accessChainAux, Option.some.injEq] at h
    have h2 := congrArg Prod.snd h
    simp only at h2
    subst h2
    exact hg
  | w :: ws, o, s, hg, r, s', h => by
    simp only [accessChainAux] at h
    cases ha : accessAttr o.1 w s with
    | none => rw [ha] at h; exact Option.noConfusion h
    | some os =>
      rw [ha] at h
      exact accessChainAux_good ws os.1 os.2
        (accessAttr_good o.1 w s os.1 os.2 hg ha) r s' h

theorem goodState_bound (s : LazyState) (hg : goodState s) : s.nextFresh ≤ 6 := by
  unfold goodState at hg
  rw [hg]
  by_cases h1 : s.respObj.isSome <;> by_cases h2 : s.patchObj.isSome <;> simp [h1, h2]

/-! ### Claim theorems -/

/-- C3 (counterexample): the claim states that an `Annotated` expression's
metadata passes through resolution unchanged; but `_resolve_annotation`
maps itself over *all* `get_args` of an `Annotated`, so metadata that is a
canonical-model class is replaced by its target variant: resolving
`Annotated[int, M]` for the Request target rewrites the metadata `M` to
`M.__request__`. -/
theorem c3_counterexample :
    resolveAnn (.annotatedT (.cons (.prim "int") (.cons (.dualRef 0) .nil))) .request =
      .annotatedT (.cons (.prim "int") (.cons (.variantRef 0 .request) .nil)) ∧
    (.variantRef 0 .request : TypeExpr) ≠ .dualRef 0 := by
  exact ⟨rfl, by decide⟩

/-- C3 (amended): `_resolve_annotation` is a total structural transform: a
canonical-model reference becomes the target variant; primitives, plain
pydantic models, generated variants, `Literal`s, strings and opaque
metadata objects are unchanged; a builtin generic alias and a `typing`
alias with origin `list` have their arguments resolved recursively in
order; a `typing` alias with any other origin (e.g. `typing.Dict[...]`) is
returned unchanged, its arguments *not* resolved; a well-formed union has
its members resolved recursively, preserving order; and an `Annotated`
expression has *all* its arguments resolved — the inner type and every
metadata argument alike. -/
theorem c3_resolver :
    (∀ (m : Nat) (w : Which), resolveAnn (.dualRef m) w = .variantRef m w) ∧
    (∀ (n : String) (w : Which), resolveAnn (.prim n) w = .prim n) ∧
    (∀ (n : String) (w : Which), resolveAnn (.plainModel n) w = .plainModel n) ∧
    (∀ (m : Nat) (w' w : Which), resolveAnn (.variantRef m w') w = .variantRef m w') ∧
    (∀ (vs : List PyLit) (w : Which), resolveAnn (.litT vs) w = .litT vs) ∧
    (∀ (s : String) (w : Which), resolveAnn (.strRef s) w = .strRef s) ∧
    (∀ (t : String) (w : Which), resolveAnn (.metaObj t) w = .metaObj t) ∧
    (∀ (o : String) (args : TEList) (w : Which),
      resolveAnn (.genericAlias o args) w = .genericAlias o (resolveList args w)) ∧
    (∀ (args : TEList) (w : Which),
      resolveAnn (.typingAlias "list" args) w = .typingAlias "list" (resolveList args w)) ∧
    (∀ (o : String) (args : TEList) (w : Which), o ≠ "list" →
      resolveAnn (.typingAlias o args) w = .typingAlias o args) ∧
    (∀ (ms : TEList) (w : Which), annWF (.unionT ms) = true →
      resolveAnn (.unionT ms) w = .unionT (resolveList ms w)) ∧
    (∀ (args : TEList) (w : Which),
      resolveAnn (.annotatedT args) w = .annotatedT (resolveList args w)) := by
  refine ⟨fun m w => rfl, fun n w => rfl, fun n w => rfl, fun m w' w => rfl, fun vs w => rfl,
    fun s w => rfl, fun t w => rfl, fun o args w => rfl, ?_, ?_, ?_, fun args w => rfl⟩
  · intro args w
    rw [resolveAnn, if_pos rfl]
  · intro o args w ho
    rw [resolveAnn, if_neg ho]
  · exact fun ms w h => resolve_union_wf ms w h

/-- C3 (witness): the union clause of the amended claim at a concrete
well-formed union. -/
theorem c3_witness :
    annWF (.unionT (.cons (.dualRef 0) (.cons (.prim "int") .nil))) = true ∧
    resolveAnn (.unionT (.cons (.dualRef 0) (.cons (.prim "int") .nil))) .request =
      .unionT (resolveList (.cons (.dualRef 0) (.cons (.prim "int") .nil)) .request) :=
  ⟨by decide,
   c3_resolver.2.2.2.2.2.2.2.2.2.2.1 (.cons (.dualRef 0) (.cons (.prim "int") .nil)) .request
     (by decide)⟩

/-- C5: a canonical model equals its Request variant (in both comparison
directions) and they share one hash value; it does not equal its Response
or PatchRequest variant; and the three generated variants are pairwise
distinct classes that compare unequal. -/
theorem c5_identity : ∀ i : Nat,
    pyEq (.canonical i) (.variantCls i .request) = true ∧
    pyEq (.variantCls i .request) (.canonical i) = true ∧
    pyHash (.canonical i) = pyHash (.variantCls i .request) ∧
    pyEq (.canonical i) (.variantCls i .response) = false ∧
    pyEq (.canonical i) (.variantCls i .patch) = false ∧
    pyEq (.variantCls i .request) (.variantCls i .response) = false ∧
    pyEq (.variantCls i .request) (.variantCls i .patch) = false ∧
    pyEq (.variantCls i .response) (.variantCls i .patch) = false ∧
    (.variantCls i .request : PyClass) ≠ .variantCls i .response ∧
    (.variantCls i .request : PyClass) ≠ .variantCls i .patch ∧
    (.variantCls i .response : PyClass) ≠ .variantCls i .patch := by
  intro i
  refine ⟨by simp [pyEq, isDualMeta, dualEqL], by simp [pyEq, isDualMeta, dualEqL],
    rfl, by simp [pyEq, isDualMeta, dualEqL], by simp [pyEq, isDualMeta, dualEqL],
    by simp [pyEq, isDualMeta], by simp [pyEq, isDualMeta], by simp [pyEq, isDualMeta],
    by simp, by simp, by simp⟩

/-- C9: calling a canonical model class delegates to its Request variant:
the construction results coincide for every argument mapping, and when
construction succeeds the produced instance's class is the Request
variant. -/
theorem c9_construction (env : Env) (i : Nat) (inp : PyDict) :
    pyConstruct env (.canonical i) inp = pyConstruct env (.variantCls i .request) inp ∧
    Option.all (fun r => r.1 = .variantCls i .request) (pyConstruct env (.canonical i) inp)
      = true := by
  constructor
  · rfl
  · simp only [pyConstruct, facadeVariantAttr, pyCallClass, Option.some_bind]
    cases parseVariant env i .request inp with
    | none => rfl
    | some out => simp

/-- C8 (counterexample): a declaration whose single base is a plain
pydantic model (a `ModelMetaclass` instance that is not a canonical model),
with no suffix keyword arguments, falls in none of the claim's four failure
cases — so by the claim its definition should succeed — yet
`DualBaseModelMeta.__new__` fails: the suffix inheritance lookup
`new_class.request_suffix` raises `AttributeError` because no
`__request__` exists in the MRO. -/
theorem c8_counterexample :
    c8CaseNoModelBase ⟨[.bPlainModel "P"], false, false, none, none, none⟩ = false ∧
    c8CaseRootNoConfig ⟨[.bPlainModel "P"], false, false, none, none, none⟩ = false ∧
    c8CaseRootConfigNotDict ⟨[.bPlainModel "P"], false, false, none, none, none⟩ = false ∧
    c8CaseRootNoSuffix ⟨[.bPlainModel "P"], false, false, none, none, none⟩ = false ∧
    newModelCheck ⟨[.bPlainModel "P"], false, false, none, none, none⟩ ≠ none := by
  decide

/-- C8 (amended): definition of a model under `DualBaseModelMeta` fails
exactly in the claim's four cases — no model-metaclass base at all; a root
declaration (bases exactly `(BaseModel,)`) without `model_config`, with a
non-dictionary `model_config`, or with a missing suffix keyword — plus one
more: a non-root declaration whose bases include no canonical model, with
some suffix keyword omitted, fails with `AttributeError` in the suffix
inheritance lookup. -/
theorem c8_definition_errors : ∀ d : RawDecl,
    newModelCheck d = none ↔
      (c8CaseNoModelBase d || c8CaseRootNoConfig d || c8CaseRootConfigNotDict d ||
        c8CaseRootNoSuffix d || c8CaseSubclassNoDual d) = false := by
  intro d
  by_cases hA : d.bases.any BaseRef.isModelMeta <;>
    by_cases hR : d.bases = [.bBaseModel] <;>
      by_cases hC : d.hasModelConfig <;>
        by_cases hD : d.modelConfigIsDict <;>
          by_cases hS : (d.reqSuffix.isNone || d.respSuffix.isNone || d.patchSuffix.isNone) <;>
            by_cases hE : d.bases.any BaseRef.isDualBase <;>
              simp [newModelCheck, c8CaseNoModelBase, c8CaseRootNoConfig,
                c8CaseRootConfigNotDict, c8CaseRootNoSuffix, c8CaseSubclassNoDual,
                BaseRef.isModelMeta, BaseRef.isDualBase, hA, hR, hC, hD, hS, hE] <;>
              try decide

/-- C6 (counterexample): the claim asserts that arbitrarily long
request/response/patch access chains resolve to the model's cached variant
objects; but `__request__` was never installed on the Request variant
itself, so `M.__request__.__request__` falls through the MRO to the root
`BaseRequest`, and continuing `...__response__.__request__` reaches the
root `BaseResponse`, which carries none of the three attributes — the
chain raises `AttributeError` instead of resolving. -/
theorem c6_counterexample :
    accessChain [.request, .request, .response, .request] freshState = none := by
  decide

/-- C6 (amended): the Response/PatchRequest variants are built at most
once per model: the first access on an empty cache slot runs the synthesis
thunk and allocates a fresh object, a repeated access returns the
identical cached object with the state unchanged, the produced variants'
back-references are wired to the Request class and to the same cache
slots, the example chain `M.request.response.response.request` resolves to
the Request class, and along any access chain from the canonical class the
fresh-identity counter never exceeds the two possible constructions —
provided a `request` access is never made on the Request variant itself
(otherwise the chain escapes to the root base classes and can raise
`AttributeError`, see the counterexample). -/
theorem c6_lazy_cache :
    (∀ s : LazyState, s.respObj = none →
      accessAttr .canonicalP .response s =
        some ((.respP, s.nextFresh), ⟨some s.nextFresh, s.patchObj, s.nextFresh + 1⟩)) ∧
    (∀ (s : LazyState) (o : Nat), s.respObj = some o →
      accessAttr .canonicalP .response s = some ((.respP, o), s)) ∧
    (∀ (p : Pos) (w : Which) (s : LazyState) (o : Pos × Nat) (s' : LazyState),
      accessAttr p w s = some (o, s') → accessAttr p w s' = some (o, s')) ∧
    (∀ s : LazyState,
      accessAttr .respP .request s = some ((.reqP, reqObjId), s) ∧
      accessAttr .patchP .request s = some ((.reqP, reqObjId), s) ∧
      accessAttr .respP .response s = accessAttr .reqP .response s ∧
      accessAttr .respP .patch s = accessAttr .reqP .patch s ∧
      accessAttr .patchP .response s = accessAttr .reqP .response s ∧
      accessAttr .patchP .patch s = accessAttr .reqP .patch s) ∧
    (accessChain [.request, .response, .response, .request] freshState =
      some ((.reqP, reqObjId), ⟨some 4, none, 5⟩)) ∧
    (∀ (ws : List Which) (r : Pos × Nat) (s' : LazyState),
      accessChain ws freshState = some (r, s') → s'.nextFresh ≤ 6) := by
  refine ⟨?_, ?_, accessAttr_stable, ?_, by decide, ?_⟩
  · intro s h
    simp [accessAttr, getRespC, h]
  · intro s o h
    simp [accessAttr, getRespC, h]
  · intro s
    exact ⟨rfl, rfl, rfl, rfl, rfl, rfl⟩
  · intro ws r s' h
    refine goodState_bound s' (accessChainAux_good ws (.canonicalP, canonObjId) freshState ?_ r s' h)
    rfl

/-- C6 (witness): the first access to `M.__response__` on a fresh model
allocates the Response variant and fills the cache slot. -/
theorem c6_witness :
    freshState.respObj = none ∧
    accessAttr .canonicalP .response freshState =
      some ((.respP, freshState.nextFresh),
        ⟨some freshState.nextFresh, freshState.patchObj, freshState.nextFresh + 1⟩) :=
  ⟨rfl, c6_lazy_cache.1 freshState rfl⟩

/-- C1 (counterexample): the claim demands every PatchRequest field be
given default null irrespective of its original default; but for the model
`M` with `x: int = 5` the generated PatchRequest keeps the original
default `5` (only fields *without* a usable default get default `None`),
so the PatchRequest field set differs from the claim's transform of the
Request field set. -/
theorem c1_counterexample :
    variantFieldsOf exEnvDefault 0 .patch ≠
      (variantFieldsOf exEnvDefault 0 .request).map specClaimC1Field := by
  decide

/-- C1 (amended): for a well-formed program, the PatchRequest variant's
field set is exactly the image of the Request variant's own field set
under the per-field transform `patchFromRequestField`: nested
canonical-variant references are retargeted from Request to PatchRequest,
the type is wrapped `Optional` (an `Annotated` wraps its first argument, a
string forward reference is wrapped textually) — except a single-valued
`Literal`, which keeps its type and receives the literal value itself as
default — and the default becomes `None` exactly when the field had no
usable default, while an existing default is kept. -/
theorem c1_patch_fields (env : Env) (h : envWF env = true) (i : Nat) :
    variantFieldsOf env i .patch = (variantFieldsOf env i .request).map patchFromRequestField := by
  unfold envWF at h
  rw [Bool.and_eq_true] at h
  exact patch_eq_request_map env h.2 i

/-- C1 (witness): the amended claim at a concrete two-field model. -/
theorem c1_witness :
    envWF exEnvDefault = true ∧
    variantFieldsOf exEnvDefault 0 .patch =
      (variantFieldsOf exEnvDefault 0 .request).map patchFromRequestField :=
  ⟨by decide, c1_patch_fields exEnvDefault (by decide) 0⟩

/-- C2 (counterexample): the claim says an explicit per-model config given
as a class keyword argument overrides the derived default; but for
`class Schema(DualBaseModel, extra=Extra.ignore)` the Request variant's
`extra` is still `forbid` — `_generate_alternative_classes` force-rewrites
an `extra` keyword argument to `"forbid"` for the Request (and
PatchRequest) variant, exactly as `test_config_defined_in_kwargs`
asserts. -/
theorem c2_counterexample :
    (exEnvKwargs.get? 0).map (fun d => d.kwargsExtra) = some (some .ignore) ∧
    variantExtraOf exEnvKwargs 0 .request = .forbid ∧
    Extra.forbid ≠ Extra.ignore := by
  decide

/-- C2 (amended): with no explicit `extra` configuration anywhere, the
Request variant validates with forbid-unknown, the Response variant with
ignore-unknown, and the PatchRequest variant with forbid-unknown; an
explicit `Config`/`model_config` attribute overrides the derived default
for all three variants; but an `extra` class keyword argument overrides
only the Response variant — for the Request and PatchRequest variants it
is force-rewritten to forbid. -/
theorem c2_extra_config (env : Env) :
    (noExtraOverrides env = true →
      ∀ i, variantExtraOf env i .request = .forbid ∧
        variantExtraOf env i .response = .ignore ∧
        variantExtraOf env i .patch = .forbid) ∧
    (∀ (i : Nat) (d : ModelDecl) (e : Extra), env.get? i = some d →
      d.configExtra = some e → d.kwargsExtra = none →
      variantExtraOf env i .request = e ∧ variantExtraOf env i .response = e ∧
        variantExtraOf env i .patch = e) ∧
    (∀ (i : Nat) (d : ModelDecl) (e : Extra), env.get? i = some d →
      d.kwargsExtra = some e →
      variantExtraOf env i .request = .forbid ∧ variantExtraOf env i .patch = .forbid ∧
        variantExtraOf env i .response = e) := by
  refine ⟨?_, ?_, ?_⟩
  · intro hno i
    exact ⟨extra_default env hno .request i, extra_default env hno .response i,
      extra_default env hno .patch i⟩
  · intro i d e hd hc hk
    refine ⟨?_, ?_, ?_⟩ <;>
      (rw [variantExtra_of_decl env i d hd]
       unfold effectiveExtra
       rw [hc, hk]
       rfl)
  · intro i d e hd hk
    refine ⟨?_, ?_, ?_⟩ <;>
      (rw [variantExtra_of_decl env i d hd]
       unfold effectiveExtra
       rw [hk]
       try rfl)

/-- C2 (witness): the amended claim's keyword-argument clause at the
concrete declaration `Schema(DualBaseModel, extra=Extra.ignore)`. -/
theorem c2_witness :
    exEnvKwargs.get? 0 =
      some ⟨"Schema", [], [⟨"field", .prim "int", none⟩], none, some .ignore⟩ ∧
    variantExtraOf exEnvKwargs 0 .request = .forbid ∧
    variantExtraOf exEnvKwargs 0 .patch = .forbid ∧
    variantExtraOf exEnvKwargs 0 .response = .ignore := by
  have h := (c2_extra_config exEnvKwargs).2.2 0
    ⟨"Schema", [], [⟨"field", .prim "int", none⟩], none, some .ignore⟩ .ignore rfl rfl
  exact ⟨rfl, h.1, h.2.1, h.2.2⟩

/-- C4 (counterexample): the claim says a single-valued `Literal` field
stays *required* on the PatchRequest variant; but `_alter_attrs`
overwrites the field's namespace value with the literal constant, so the
PatchRequest field has a default (the tag value itself) and is not
required — only the non-nullability half of the claim holds. -/
theorem c4_counterexample :
    ((variantFieldsOf exEnvLiteral 0 .patch).find? (fun g => g.name = "object_type")).map
        (fun f => requiredB f.default) = some false ∧
    ((variantFieldsOf exEnvLiteral 0 .patch).find? (fun g => g.name = "object_type")).map
        (fun f => f.ann) = some (.litT [.strL "a"]) := by
  decide

/-- C4 (amended): for a well-formed program, a (merged) declared field
whose annotation is a `Literal` with exactly one value appears on the
PatchRequest variant with its `Literal` type unchanged (not wrapped
nullable) and with the single literal value as its default — hence it is
non-nullable but, contrary to the original claim, no longer required. -/
theorem c4_literal_tag (env : Env) (h : env.all declWF = true) (i : Nat) (n : String)
    (f : FieldDecl) (v : PyLit)
    (hfind : ((((buildAll env).get? i).getD rootBuilt).merged).find? (fun g => g.name = n)
      = some f)
    (hann : f.ann = .litT [v]) :
    (variantFieldsOf env i .patch).find? (fun g => g.name = n) =
      some ⟨f.name, .litT [v], some (.plain v)⟩ ∧
    requiredB (some (.plain v)) = false := by
  refine ⟨?_, rfl⟩
  unfold variantFieldsOf
  cases hg : (buildAll env).get? i with
  | none =>
    rw [hg] at hfind
    simp only [Option.getD_none] at hfind
    exact absurd hfind (by simp [rootBuilt])
  | some B =>
    rw [hg] at hfind
    simp only [Option.getD_some] at hfind ⊢
    obtain ⟨_, _, h3, _⟩ := buildAll_inv env h B (List.get?_mem hg)
    show (B.patchFields).find? (fun g => g.name = n) = _
    rw [h3, find?_map_nameG (fieldXform .patch) FieldDecl.name FieldSpec.name
      (fieldXform_name .patch) B.merged n, hfind]
    show some (patchField f) = _
    congr 1
    unfold patchField
    rw [hann]
    rfl

/-- C4 (witness): the amended claim at a model with the tag field
`object_type: Literal["a"]`. -/
theorem c4_witness :
    exEnvLiteral.all declWF = true ∧
    (variantFieldsOf exEnvLiteral 0 .patch).find? (fun g => g.name = "object_type") =
      some ⟨"object_type", .litT [.strL "a"], some (.plain (.strL "a"))⟩ := by
  refine ⟨by decide, ?_⟩
  exact (c4_literal_tag exEnvLiteral (by decide) 0 "object_type"
    ⟨"object_type", .litT [.strL "a"], none⟩ (.strL "a") (by decide) rfl).1

/-- C7 (counterexample): the claim quantifies over *every* canonical
model; but for a model whose `Config` declares `extra = Extra.ignore`
(which, per `test_config_defined_in_model`, overrides the derived
default), parsing a mapping with the undeclared field `c` *succeeds* on
the Request variant instead of failing. -/
theorem c7_counterexample :
    (exEnvCfgIgnore.get? 0).map (fun d => d.configExtra) = some (some .ignore) ∧
    (parseVariant exEnvCfgIgnore 0 .request
      (.cons "field" (.vStr "v") (.cons "c" (.vStr "extra") .nil))).isSome = true := by
  refine ⟨rfl, ?_⟩
  simp [parseVariant, parseMap, parseEntries, parseStep, checkVal, checkPrim, variantFieldsOf,
    variantExtraOf, exEnvCfgIgnore, buildAll, buildAllAux, buildOne, requiredOk, defaultsFill,
    PyDict.hasKey, PyDict.app, inheritedFS, inheritedExtra, effectiveExtra, updFS, fieldXform,
    plainXform, resolveAnn, requiredB, Built.fieldsOf, Built.extraOf, rootExtra]

/-- C7 (amended): for a well-formed program with no explicit `extra`
configuration anywhere (so the derived defaults are in effect): a mapping
containing a key not declared on the model fails validation on the
Request variant and on the PatchRequest variant; the Response variant
parses any mapping exactly as it parses the mapping with its unrecognized
keys removed (they are discarded); and a mapping of correct shape for a
variant — only declared keys, all required fields present, every value
passing its field's shape check — parses successfully on that variant. -/
theorem c7_unknown_fields (env : Env) (i : Nat) (hwf : envWF env = true)
    (hno : noExtraOverrides env = true) :
    (∀ (inp : PyDict) (k : String), PyDict.hasKey inp k = true →
      (variantFieldsOf env i .request).find? (fun f => f.name = k) = none →
      parseVariant env i .request inp = none ∧ parseVariant env i .patch inp = none) ∧
    (∀ inp : PyDict, parseVariant env i .response inp =
      parseVariant env i .response
        (inp.filterKeys
          (fun k => ((variantFieldsOf env i .response).find? (fun f => f.name = k)).isSome))) ∧
    (∀ (w : Which) (inp : PyDict), wellShaped env (variantFieldsOf env i w) inp = true →
      (parseVariant env i w inp).isSome = true) := by
  have hall : env.all declWF = true := by
    unfold envWF at hwf
    rw [Bool.and_eq_true] at hwf
    exact hwf.2
  refine ⟨?_, ?_, ?_⟩
  · intro inp k hk hfind
    constructor
    · unfold parseVariant
      rw [extra_default env hno .request i]
      exact parseMap_forbid_none env _ k inp hk hfind
    · unfold parseVariant
      rw [extra_default env hno .patch i]
      refine parseMap_forbid_none env _ k inp hk ?_
      rw [patch_eq_request_map env hall i,
        find?_map_nameG patchFromRequestField FieldSpec.name FieldSpec.name
          patchFromRequestField_name _ k, hfind]
      rfl
  · intro inp
    unfold parseVariant
    rw [extra_default env hno .response i]
    exact parseMap_ignore_filter env _ inp
  · intro w inp hws
    unfold parseVariant
    exact parseMap_isSome_of_wellShaped env _ _ inp hws

/-- C7 (witness): the Request-variant rejection clause at a concrete
model and a mapping with the undeclared key `zz`. -/
theorem c7_witness :
    envWF exEnvNested = true ∧ noExtraOverrides exEnvNested = true ∧
    PyDict.hasKey (.cons "zz" (.vStr "x") .nil) "zz" = true ∧
    (variantFieldsOf exEnvNested 1 .request).find? (fun f => f.name = "zz") = none ∧
    parseVariant exEnvNested 1 .request (.cons "zz" (.vStr "x") .nil) = none := by
  refine ⟨by decide, by decide, by decide, by decide, ?_⟩
  exact ((c7_unknown_fields exEnvNested 1 (by decide) (by decide)).1
    (.cons "zz" (.vStr "x") .nil) "zz" (by decide) (by decide)).1

/-- C10: `isinstance` and `issubclass` against a canonical model hold
exactly when the ordinary MRO check succeeds against the model itself or
against one of its three generated variants; in particular every
generated variant (and every variant of a model that inherits from it) is
a subclass of the canonical model, while the canonical model is not a
subclass of any generated variant. -/
theorem c10_type_checks (env : Env) (hb : basesWFB env = true) :
    (∀ (c : PyClass) (i : Nat),
      isinstanceB env c (.canonical i) =
        (plainSubB env c (.canonical i) || plainSubB env c (.variantCls i .request) ||
          plainSubB env c (.variantCls i .response) || plainSubB env c (.variantCls i .patch))) ∧
    (∀ (x : PyClass) (i : Nat),
      issubclassB env x (.canonical i) =
        (plainSubB env x (.canonical i) || plainSubB env x (.variantCls i .request) ||
          plainSubB env x (.variantCls i .response) || plainSubB env x (.variantCls i .patch))) ∧
    (∀ (i : Nat) (d : ModelDecl) (w : Which), env.get? i = some d →
      issubclassB env (.variantCls i w) (.canonical i) = true) ∧
    (∀ (i j : Nat) (w : Which), issubclassB env (.canonical i) (.variantCls j w) = false) ∧
    (∀ (j : Nat) (d : ModelDecl) (i : Nat) (di : ModelDecl) (w : Which),
      env.get? j = some d → i ∈ d.bases → env.get? i = some di →
      issubclassB env (.variantCls j w) (.canonical i) = true) := by
  refine ⟨fun c i => rfl, fun x i => rfl, ?_, ?_, ?_⟩
  · intro i d w hd
    have hmem := variant_self_mem_anc env i d hd w
    have hself : plainSubB env (.variantCls i w) (.variantCls i w) = true := by
      unfold plainSubB
      rw [List.any_eq_true]
      exact ⟨_, hmem, by simp⟩
    show (plainSubB env (.variantCls i w) (.canonical i) ||
      plainSubB env (.variantCls i w) (.variantCls i .request) ||
      plainSubB env (.variantCls i w) (.variantCls i .response) ||
      plainSubB env (.variantCls i w) (.variantCls i .patch)) = true
    cases w <;> simp [hself]
  · intro i j w
    show plainSubB env (.canonical i) (.variantCls j w) = false
    exact canonical_not_sub_variant env i j w
  · intro j d i di w hd hij hdi
    have hmem := child_variant_mem_anc env hb j d hd i hij di hdi w
    have hsub : plainSubB env (.variantCls j w) (.variantCls i w) = true := by
      unfold plainSubB
      rw [List.any_eq_true]
      exact ⟨_, hmem, by simp⟩
    show (plainSubB env (.variantCls j w) (.canonical i) ||
      plainSubB env (.variantCls j w) (.variantCls i .request) ||
      plainSubB env (.variantCls j w) (.variantCls i .response) ||
      plainSubB env (.variantCls j w) (.variantCls i .patch)) = true
    cases w <;> simp [hsub]

/-- C10 (witness): at a concrete program, the Request variant is a
subclass of its canonical model. -/
theorem c10_witness :
    basesWFB exEnvNested = true ∧
    exEnvNested.get? 0 = some ⟨"X", [], [⟨"x", .prim "str", none⟩], none, none⟩ ∧
    issubclassB exEnvNested (.variantCls 0 .request) (.canonical 0) = true := by
  refine ⟨by decide, rfl, ?_⟩
  exact (c10_type_checks exEnvNested (by decide)).2.2.1 0
    ⟨"X", [], [⟨"x", .prim "str", none⟩], none, none⟩ .request rfl

end PydanticDuality
